import Mathlib

/-!
Verification of the go-aperitif parameter binding/validation subsystem.

This file gives a shallow embedding of the relevant Go code:

* `src/validator/validators.go` (enum / uuid4 / comparenow rules),
* `src/kronos/kronos.go` (`Compare`),
* `src/api/apiparams/binder.go`, `src/api/apiparams/reflector.go` and the
  param-source metadata (`src/unnamed/part_010`),

and proves theorems about the spec's claims over that embedding.

Modelling conventions:

* Go strings are Lean `String`s; helper functions over `String.data`
  (lists of characters) replace the Go standard library's string
  functions (`strings.Split`, `strings.ToLower`, `strings.HasPrefix`,
  `strings.Join`), keeping every definition computable by kernel
  reduction.
* Go's `time.Time` instants are modelled as integers (an instant on a
  totally ordered time line); the zero instant models Go's zero time.
* Go maps are association lists with overwrite-on-insert and
  first-match lookup; a missing key reads as the zero value, as in Go.
-/

namespace GoStrings

/-- Character-level split: the Go `strings.Split(s, sep)` behaviour for a
one-character separator.  Always returns a non-empty list; splitting the
empty string yields `[""]`. -/
def splitOnChar (c : Char) : List Char → List (List Char)
  | [] => [[]]
  | x :: xs =>
    let r := splitOnChar c xs
    if x = c then [] :: r
    else
      match r with
      | [] => [[x]]
      | y :: ys => (x :: y) :: ys

/-- Go `strings.Split(s, string(c))` for a single-character separator. -/
def goSplit (s : String) (c : Char) : List String :=
  (splitOnChar c s.data).map String.mk

/-- Go `strings.Join(xs, sep)`. -/
def goJoin (sep : String) : List String → String
  | [] => ""
  | [x] => x
  | x :: xs => x ++ sep ++ goJoin sep xs

/-- Go `strings.ToLower` (ASCII range; the inputs exercised by the spec
are ASCII). -/
def strToLower (s : String) : String :=
  String.mk (s.data.map Char.toLower)

/-- Go `strings.HasPrefix(s, pre)`. -/
def goHasPre (s pre : String) : Bool :=
  pre.data.isPrefixOf s.data

theorem splitOnChar_ne_nil (c : Char) (cs : List Char) : splitOnChar c cs ≠ [] := by
  cases cs with
  | nil => simp [splitOnChar]
  | cons x xs =>
    simp only [splitOnChar]
    split
    · simp
    · split
      · simp
      · simp

theorem goSplit_ne_nil (s : String) (c : Char) : goSplit s c ≠ [] := by
  simpa [goSplit] using splitOnChar_ne_nil c s.data

theorem strToLower_eq_empty_iff (s : String) : strToLower s = "" ↔ s = "" := by
  obtain ⟨d⟩ := s
  rw [String.ext_iff, String.ext_iff]
  simp only [strToLower]
  cases d with
  | nil => simp
  | cons a as => simp [show ("" : String).data = [] from rfl]

end GoStrings

namespace Kronos

/-- `kronos.Compare` from `src/kronos/kronos.go`: 0 when equal, -1 when
`t1` is before `t2`, 1 otherwise. -/
def Compare (t1 t2 : Int) : Int :=
  if t1 = t2 then 0
  else if t1 < t2 then -1
  else 1

end Kronos

namespace GoValidator

open GoStrings

/-- The dynamic value handed to a validation function, after
go-validator's pointer coalescing (see the comment block in
`src/validator/validators.go`): a non-nil pointer arrives dereferenced,
so only the plain value and the nil-pointer cases remain. -/
inductive GoVal where
  | vStr (s : String)
  | vStrPtrNil
  | vStrSlice (ss : List String)
  | vStrSlicePtrNil
  | vTime (t : Int)
  | vTimePtrNil
  | vOther
deriving DecidableEq, Repr

/-- The outcome of a validation function: `ok` is Go's nil error,
`textErr` a `validator.TextErr`, and the two sentinel errors of the
go-validator package. -/
inductive VErr where
  | ok
  | textErr (s : String)
  | badParameter
  | unsupported
deriving DecidableEq, Repr

def optionalKeyword : String := "opt"

/-- `splitOptionalVal` from `src/validator/validators.go`: split the rule
parameter on the pipe character, peel a trailing `opt`, and reject an
empty remainder with the bad-parameter error. -/
def splitOptionalVal (param : String) : Except VErr (List String × Bool) :=
  let params := goSplit param '|'
  if params.length = 0 then .error .badParameter
  else
    let isOpt := params.getLast? = some optionalKeyword
    let params := if isOpt then params.dropLast else params
    if params.length = 0 then .error .badParameter
    else .ok (params, isOpt)

/-- `stringutil.Contains` from `src/stringutil/stringutil.go`. -/
def containsStr (xs : List String) (e : String) : Bool :=
  xs.any (fun a => a == e)

/-- `validateEnumImplStr` from `src/validator/validators.go`. -/
def validateEnumImplStr (s : String) (choices : List String) (isOpt : Bool) : VErr :=
  if s = "" then
    if isOpt then .ok else .textErr "empty string"
  else if containsStr choices s then .ok
  else .textErr ("is not one of " ++ goJoin "|" choices)

/-- `validateEnumImplSlice` from `src/validator/validators.go`. -/
def validateEnumImplSlice (ss : List String) (choices : List String) : VErr :=
  match ss with
  | [] => .ok
  | s :: rest =>
    if !containsStr choices s then
      .textErr ("element not one of " ++ goJoin "|" choices)
    else validateEnumImplSlice rest choices

/-- `validateEnumImpl` from `src/validator/validators.go`; `mapper` is
the optional case-folding function (`strings.ToLower` for the
case-insensitive variant, absent for the case-sensitive one). -/
def validateEnumImpl (v : GoVal) (param : String) (mapper : Option (String → String)) : VErr :=
  match splitOptionalVal param with
  | .error e => e
  | .ok (choices0, isOpt) =>
    let choices := match mapper with
      | some m => choices0.map m
      | none => choices0
    match v with
    | .vStr s =>
      let s' := match mapper with
        | some m => m s
        | none => s
      validateEnumImplStr s' choices isOpt
    | .vStrPtrNil => .ok
    | .vStrSlice ss =>
      if isOpt then .badParameter
      else
        let ss' := match mapper with
          | some m => ss.map m
          | none => ss
        validateEnumImplSlice ss' choices
    | .vStrSlicePtrNil => .ok
    | _ => .unsupported

/-- `validateCaseInsensitiveEnum` (the `enum` rule). -/
def validateCaseInsensitiveEnum (v : GoVal) (param : String) : VErr :=
  validateEnumImpl v param (some strToLower)

/-- `validateCaseSensitiveEnum` (the `cenum` rule). -/
def validateCaseSensitiveEnum (v : GoVal) (param : String) : VErr :=
  validateEnumImpl v param none

/-- `makeStringValidator` from `src/validator/validators.go`. -/
def makeStringValidator (malformed : VErr) (validate : String → Bool)
    (v : GoVal) (param : String) : VErr :=
  match v with
  | .vStr s =>
    if s = "" then
      if param = optionalKeyword then .ok else malformed
    else if !validate s then malformed
    else .ok
  | .vStrPtrNil => .ok
  | _ => .unsupported

def ErrInvalidUUID4 : VErr := .textErr "not a uuid4 string"

/-- A character matched by the class of the pattern
`[0-9a-fA-F-]` used by `uuid4Regexp`. -/
def isUuid4PatternChar (c : Char) : Bool :=
  ('0' ≤ c && c ≤ '9') || ('a' ≤ c && c ≤ 'f') || ('A' ≤ c && c ≤ 'F') || c == '-'

/-- `uuid4Regexp.MatchString` for the pattern anchored at the start and
requiring 32 characters from the class: true iff the string has at least
32 characters and its first 32 characters are all hex digits or dashes.
Nothing is said about total length or about what follows the matched
section. -/
def uuid4RegexpMatches (s : String) : Bool :=
  32 ≤ s.data.length && (s.data.take 32).all isUuid4PatternChar

/-- `validateUUID4` from `src/validator/validators.go`. -/
def validateUUID4 (v : GoVal) (param : String) : VErr :=
  makeStringValidator ErrInvalidUUID4 uuid4RegexpMatches v param

def timeIsZero (t : Int) : Bool := t == 0

/-- `makeValidateCompareNow` from `src/validator/validators.go`, with the
injected clock supplied as the `now` argument. -/
def makeValidateCompareNow (now : Int) (v : GoVal) (param : String) : VErr :=
  match v with
  | .vTime t =>
    (match splitOptionalVal param with
     | .error e => e
     | .ok (params, isOpt) =>
       match params with
       | [] => .badParameter
       | p0 :: _ =>
         let c := Kronos.Compare t now
         let msg : Option String :=
           if p0 = "gte" then some (if c < 0 then "before" else "")
           else if p0 = "gt" then some (if c ≤ 0 then "before or at" else "")
           else if p0 = "lte" then some (if c > 0 then "after" else "")
           else if p0 = "lt" then some (if c ≥ 0 then "after or at" else "")
           else none
         match msg with
         | none => .badParameter
         | some m =>
           if m = "" then .ok
           else if isOpt ∧ timeIsZero t then .ok
           else .textErr (m ++ " now"))
  | .vTimePtrNil => .ok
  | _ => .unsupported

end GoValidator

namespace Apiparams

open GoStrings

/-- `ParamSource` from the apiparams package: the struct-tag names that
declare where a field may be set from. -/
inductive ParamSource where
  | json | form | path | query | header
deriving DecidableEq, Repr

/-- `AllParamSources`, in the priority order used by `parseToParamField`. -/
def AllParamSources : List ParamSource :=
  [.json, .form, .path, .query, .header]

def sourceTagName : ParamSource → String
  | .json => "json"
  | .form => "form"
  | .path => "path"
  | .query => "query"
  | .header => "header"

/-- The scalar Go types `reflector.parseValue` supports: ints of the
three sizes, string, bool, the two slice types, and a pointer wrapper.
Floating-point fields are outside the model (no claim mentions them). -/
inductive ScalarType where
  | tInt | tInt64 | tInt32 | tString | tBool
  | tSliceString | tSliceInt
  | tPtr (elem : ScalarType)
deriving DecidableEq, Repr

/-- A field of a nested (depth-two) struct; the claims exercise structs
nested at most one level deep, so members of nested structs carry scalar
types. -/
structure InnerField where
  name : String
  tags : List (String × String)
  ftype : ScalarType
deriving DecidableEq, Repr

/-- The type of a top-level params-struct field: a scalar, a nested
struct, or a slice of structs. -/
inductive FieldType where
  | scalar (t : ScalarType)
  | structT (fields : List InnerField)
  | sliceStruct (fields : List InnerField)
deriving DecidableEq, Repr

/-- A top-level field of a params struct: Go field name, struct tags,
the anonymous (embedded) flag, and its type. -/
structure GoField where
  name : String
  tags : List (String × String)
  anonymous : Bool
  ftype : FieldType
deriving DecidableEq, Repr

/-- A runtime Go value of one of the supported field types.  A nil slice
and an empty slice are identified (they are observationally equal under
append and length in the binder); `vPtr none` is a nil pointer;
`vStructSliceNil` is the zero value of a slice-of-structs field, which
the binder never manipulates. -/
inductive Value where
  | vInt (n : Int)
  | vStr (s : String)
  | vBool (b : Bool)
  | vSliceString (xs : List String)
  | vSliceInt (xs : List Int)
  | vPtr (p : Option Value)
  | vStruct (fs : List (String × Value))
  | vStructSliceNil

/-- Go map read (first match; association list). -/
def mapLookup {α : Type} (m : List (String × α)) (k : String) : Option α :=
  match m.find? (fun p => p.1 == k) with
  | some p => some p.2
  | none => none

/-- Go map write: overwrite the existing key or add a new entry. -/
def mapInsert {α : Type} (m : List (String × α)) (k : String) (v : α) : List (String × α) :=
  if (m.find? (fun p => p.1 == k)).isSome then
    m.map (fun p => if p.1 == k then (k, v) else p)
  else m ++ [(k, v)]

/-- Go `StructTag.Lookup`. -/
def tagLookup (tags : List (String × String)) (k : String) : Option String :=
  mapLookup tags k

/-- Go `StructTag.Get`: empty string when the tag is absent. -/
def tagGet (tags : List (String × String)) (k : String) : String :=
  (tagLookup tags k).getD ""

/-- `paramField` from the apiparams package: wire name, declared source,
and the referenced struct field (its Go name and type stand in for the
`reflect.StructField`). -/
structure ParamField where
  name : String
  source : ParamSource
  fieldName : String
  ftype : FieldType
deriving DecidableEq, Repr

/-- `paramField.CanSetFrom`: the sources match, or the field's source is
json, the universal super-source. -/
def ParamField.CanSetFrom (p : ParamField) (ps : ParamSource) : Bool :=
  p.source == .json || p.source == ps

/-- The loop body of `parseToParamField`: scan the supported sources in
priority order, skip absent tags and the dash, and build the wire name
from the first honored tag (an empty name with options present falls
back to the Go field name). -/
def parseToParamFieldGo (fieldName : String) (tags : List (String × String))
    (ftype : FieldType) : List ParamSource → Option ParamField
  | [] => none
  | src :: rest =>
    match tagLookup tags (sourceTagName src) with
    | none => parseToParamFieldGo fieldName tags ftype rest
    | some tag =>
      if tag = "-" then parseToParamFieldGo fieldName tags ftype rest
      else
        let parts := goSplit tag ','
        let pname := if 1 < parts.length ∧ parts.headD "" = "" then fieldName
          else parts.headD ""
        some ⟨pname, src, fieldName, ftype⟩

/-- `parseToParamField` from `src/unnamed/part_010`. -/
def parseToParamField (fieldName : String) (tags : List (String × String))
    (ftype : FieldType) : Option ParamField :=
  parseToParamFieldGo fieldName tags ftype AllParamSources

/-- The two indexes `newReflector` builds: wire name to param field, and
Go field name to wire name. -/
structure RMaps where
  paramFieldsByJsonName : List (String × ParamField)
  jsonNamesByFieldName : List (String × String)

def RMaps.register (m : RMaps) (fieldName : String) (pf : ParamField) : RMaps :=
  ⟨mapInsert m.paramFieldsByJsonName pf.name pf,
   mapInsert m.jsonNamesByFieldName fieldName pf.name⟩

/-- `reflector.parseStructTags` restricted to the members of a nested
struct (whose fields are scalar, so the kind switch does not recurse). -/
def parseInnerFields : List InnerField → RMaps → RMaps
  | [], m => m
  | f :: rest, m =>
    let m' := match parseToParamField f.name f.tags (.scalar f.ftype) with
      | none => m
      | some pf => m.register f.name pf
    parseInnerFields rest m'

/-- `reflector.parseStructTags`: walk the top-level fields in order; an
anonymous struct field is recursed into first; a field with an honored
source tag is registered in both maps, and a struct or slice-of-struct
field is then recursed into (with the flat maps shared, so nested
members land in the same top-level index). -/
def parseStructTags : List GoField → RMaps → RMaps
  | [], m => m
  | f :: rest, m =>
    let m1 := if f.anonymous then
        match f.ftype with
        | .structT inner => parseInnerFields inner m
        | _ => m
      else m
    let m2 := match parseToParamField f.name f.tags f.ftype with
      | none => m1
      | some pf =>
        let m' := m1.register f.name pf
        match f.ftype with
        | .structT inner => parseInnerFields inner m'
        | .sliceStruct inner => parseInnerFields inner m'
        | .scalar _ => m'
    parseStructTags rest m2

/-- `http.StatusText` for the codes this subsystem produces. -/
def statusText (code : Nat) : String :=
  if code = 400 then "Bad Request"
  else if code = 415 then "Unsupported Media Type"
  else if code = 422 then "Unprocessable Entity"
  else if code = 500 then "Internal Server Error"
  else ""

/-- The `httpError` value from `src/api/apiparams/httperror.go`. -/
structure HTTPError where
  code : Nat
  messages : List String
deriving DecidableEq, Repr

/-- `NewHTTPError`: an empty message is replaced by the standard status
text. -/
def NewHTTPError (code : Nat) (message : String) : HTTPError :=
  if message = "" then ⟨code, [statusText code]⟩ else ⟨code, [message]⟩

/-- The params-struct instance: the top-level fields as name/value
pairs (nested struct values live inside `Value.vStruct`). -/
abbrev TopState := List (String × Value)

/-- Direct field read on a struct value. -/
def lookupVal (st : TopState) (nm : String) : Option Value :=
  mapLookup st nm

/-- Direct field write on a struct value (no-op when the name is
absent; the callers below check presence first). -/
def updateVal (st : TopState) (nm : String) (v : Value) : TopState :=
  st.map (fun p => if p.1 == nm then (nm, v) else p)

/-- Promoted lookup through anonymous embedded struct fields, as
`reflect.Value.FieldByName` does when the direct lookup misses. -/
def anonFieldLookup : List GoField → TopState → String → Option Value
  | [], _, _ => none
  | f :: fs, st, nm =>
    if f.anonymous then
      match f.ftype, lookupVal st f.name with
      | .structT _, some (.vStruct inner) =>
        (match lookupVal inner nm with
         | some v => some v
         | none => anonFieldLookup fs st nm)
      | _, _ => anonFieldLookup fs st nm
    else anonFieldLookup fs st nm

/-- `reflect.Value.FieldByName` on the top-level struct value: a direct
field, or a field promoted through an anonymous embedded struct;
`none` models the zero `reflect.Value` (whose `CanSet` is false). -/
def fieldByName (schema : List GoField) (st : TopState) (nm : String) : Option Value :=
  match lookupVal st nm with
  | some v => some v
  | none => anonFieldLookup schema st nm

/-- The write-back counterpart of `anonFieldLookup`. -/
def anonFieldUpdate : List GoField → TopState → String → Value → Option TopState
  | [], _, _, _ => none
  | f :: fs, st, nm, v =>
    if f.anonymous then
      match f.ftype, lookupVal st f.name with
      | .structT _, some (.vStruct inner) =>
        if (lookupVal inner nm).isSome then
          some (updateVal st f.name (.vStruct (updateVal inner nm v)))
        else anonFieldUpdate fs st nm v
      | _, _ => anonFieldUpdate fs st nm v
    else anonFieldUpdate fs st nm v

/-- Writing through the `reflect.Value` that `FieldByName` returned:
succeeds exactly when the lookup would have found a settable field. -/
def fieldUpdateByName (schema : List GoField) (st : TopState) (nm : String)
    (v : Value) : Option TopState :=
  if (lookupVal st nm).isSome then some (updateVal st nm v)
  else anonFieldUpdate schema st nm v

/-- Go zero values for the supported scalar types. -/
def zeroScalar : ScalarType → Value
  | .tInt => .vInt 0
  | .tInt64 => .vInt 0
  | .tInt32 => .vInt 0
  | .tString => .vStr ""
  | .tBool => .vBool false
  | .tSliceString => .vSliceString []
  | .tSliceInt => .vSliceInt []
  | .tPtr _ => .vPtr none

def zeroField : FieldType → Value
  | .scalar t => zeroScalar t
  | .structT inner => .vStruct (inner.map (fun f => (f.name, zeroScalar f.ftype)))
  | .sliceStruct _ => .vStructSliceNil

/-- The freshly allocated params struct handed to the binder. -/
def zeroState (fs : List GoField) : TopState :=
  fs.map (fun f => (f.name, zeroField f.ftype))

def digitsToNatAux : List Char → Nat → Option Nat
  | [], acc => some acc
  | c :: cs, acc =>
    if '0' ≤ c ∧ c ≤ '9' then digitsToNatAux cs (acc * 10 + (c.toNat - '0'.toNat))
    else none

/-- Sign and magnitude of a base-10 integer literal in the syntax Go's
`strconv.ParseInt` accepts: an optional sign followed by at least one
decimal digit. -/
def parseGoIntMag : List Char → Option (Bool × Nat)
  | [] => none
  | '+' :: rest => if rest.isEmpty then none else (digitsToNatAux rest 0).map (false, ·)
  | '-' :: rest => if rest.isEmpty then none else (digitsToNatAux rest 0).map (true, ·)
  | cs => (digitsToNatAux cs 0).map (false, ·)

/-- Go `strconv.ParseInt(value, 10, bitSize)`; a value outside the
bit-size range is an error (the Go call returns the clamped value
together with a range error, and every caller here checks the error). -/
def parseGoInt (bitSize : Nat) (s : String) : Option Int :=
  match parseGoIntMag s.data with
  | none => none
  | some (neg, mag) =>
    let v : Int := if neg then -(mag : Int) else (mag : Int)
    if -(2 ^ (bitSize - 1) : Int) ≤ v ∧ v ≤ (2 ^ (bitSize - 1) : Int) - 1 then some v
    else none

/-- Go `strconv.ParseBool`. -/
def parseGoBool (s : String) : Option Bool :=
  if s = "1" ∨ s = "t" ∨ s = "T" ∨ s = "true" ∨ s = "TRUE" ∨ s = "True" then some true
  else if s = "0" ∨ s = "f" ∨ s = "F" ∨ s = "false" ∨ s = "FALSE" ∨ s = "False" then some false
  else none

/-- Result of `reflector.setField` / `reflector.parseValue`: a parsed
value, a recoverable parse error (with the Go error text abstracted),
or a panic (a programmer error in the Go code). -/
inductive PRes where
  | ok (v : Value)
  | perr (msg : String)
  | ppanic (msg : String)

/-- A registered custom `Parser`: string value and pointer-ness in, a
value or an error out. -/
abbrev GoParserFn := String → Bool → Except String Value

def unsupportedTypeMsg : String :=
  "parameter struct has parsed field with unsupported type"

def stripPtr : ScalarType → ScalarType × Bool
  | .tPtr u => (u, true)
  | t => (t, false)

def wrapPtr (isPtr : Bool) (v : Value) : Value :=
  if isPtr then .vPtr (some v) else v

def ofParserResult : Except String Value → PRes
  | .ok v => .ok v
  | .error e => .perr e

/-- The recursive `parseValue` call on a string-slice element (element
type `string`, not a pointer): a registered parser for `string` is
consulted first, exactly as the recursion in the source does. -/
def parseStringElem (parsers : ScalarType → Option GoParserFn) (value : String) : PRes :=
  match parsers .tString with
  | some p => ofParserResult (p value false)
  | none => .ok (.vStr value)

/-- The recursive `parseValue` call on an int-slice element. -/
def parseIntElem (parsers : ScalarType → Option GoParserFn) (value : String) : PRes :=
  match parsers .tInt with
  | some p => ofParserResult (p value false)
  | none =>
    match parseGoInt 64 value with
    | some n => .ok (.vInt n)
    | none => .perr ("invalid integer " ++ value)

/-- The body of `reflector.parseValue` after the pointer strip: consult
the registered custom parsers for the stripped type, then dispatch on
the kind.  Scalars ignore the current field value; slices read it to
append one parsed element (a nil slice or nil pointer starts a fresh
one-element slice); an unsupported kind (here: a doubly wrapped
pointer) panics via `panicUnsupportedType`. -/
def parseValueCore (parsers : ScalarType → Option GoParserFn) (fvt : ScalarType)
    (isPtr : Bool) (field : Value) (value : String) : PRes :=
  match parsers fvt with
  | some p => ofParserResult (p value isPtr)
  | none =>
    match fvt with
    | .tInt =>
      (match parseGoInt 64 value with
       | some n => .ok (wrapPtr isPtr (.vInt n))
       | none => .perr ("invalid integer " ++ value))
    | .tInt64 =>
      (match parseGoInt 64 value with
       | some n => .ok (wrapPtr isPtr (.vInt n))
       | none => .perr ("invalid integer " ++ value))
    | .tInt32 =>
      (match parseGoInt 32 value with
       | some n => .ok (wrapPtr isPtr (.vInt n))
       | none => .perr ("invalid integer " ++ value))
    | .tString => .ok (wrapPtr isPtr (.vStr value))
    | .tBool =>
      (match parseGoBool value with
       | some b => .ok (wrapPtr isPtr (.vBool b))
       | none => .perr ("invalid bool " ++ value))
    | .tSliceString =>
      let cur : List String :=
        if isPtr then
          match field with
          | .vPtr (some (.vSliceString xs)) => xs
          | _ => []
        else
          match field with
          | .vSliceString xs => xs
          | _ => []
      (match parseStringElem parsers value with
       | .ok (.vStr s) => .ok (wrapPtr isPtr (.vSliceString (cur ++ [s])))
       | .ok _ => .ppanic "reflect.Append: value of wrong type"
       | .perr m => .perr m
       | .ppanic m => .ppanic m)
    | .tSliceInt =>
      let cur : List Int :=
        if isPtr then
          match field with
          | .vPtr (some (.vSliceInt xs)) => xs
          | _ => []
        else
          match field with
          | .vSliceInt xs => xs
          | _ => []
      (match parseIntElem parsers value with
       | .ok (.vInt n) => .ok (wrapPtr isPtr (.vSliceInt (cur ++ [n])))
       | .ok _ => .ppanic "reflect.Append: value of wrong type"
       | .perr m => .perr m
       | .ppanic m => .ppanic m)
    | .tPtr _ => .ppanic unsupportedTypeMsg

/-- `reflector.parseValue`: strip one pointer level, then run the kind
dispatch of `parseValueCore`. -/
def parseValue (parsers : ScalarType → Option GoParserFn) (t : ScalarType)
    (field : Value) (value : String) : PRes :=
  parseValueCore parsers (stripPtr t).1 (stripPtr t).2 field value

/-- `parseValue` applied at a field's declared type: a struct or
slice-of-struct type reaches no case of the kind switch and panics via
`panicUnsupportedType` (the model registers custom parsers for scalar
types only). -/
def parseValueField (parsers : ScalarType → Option GoParserFn) (ft : FieldType)
    (field : Value) (value : String) : PRes :=
  match ft with
  | .scalar t => parseValue parsers t field value
  | _ => .ppanic unsupportedTypeMsg

/-- Whether the kind dispatch of `parseValueCore` succeeds on this
string; success never depends on the current field value (scalars
ignore it, slices only read it to build the appended result). -/
def parseSucceedsCore (parsers : ScalarType → Option GoParserFn) (fvt : ScalarType)
    (isPtr : Bool) (value : String) : Bool :=
  match parsers fvt with
  | some p => match p value isPtr with | .ok _ => true | .error _ => false
  | none =>
    match fvt with
    | .tInt => (parseGoInt 64 value).isSome
    | .tInt64 => (parseGoInt 64 value).isSome
    | .tInt32 => (parseGoInt 32 value).isSome
    | .tString => true
    | .tBool => (parseGoBool value).isSome
    | .tSliceString =>
      (match parseStringElem parsers value with
       | .ok (.vStr _) => true
       | _ => false)
    | .tSliceInt =>
      (match parseIntElem parsers value with
       | .ok (.vInt _) => true
       | _ => false)
    | .tPtr _ => false

/-- Whether `parseValue` succeeds at a field's declared type. -/
def parseSucceeds (parsers : ScalarType → Option GoParserFn) (ft : FieldType)
    (value : String) : Bool :=
  match ft with
  | .scalar t => parseSucceedsCore parsers (stripPtr t).1 (stripPtr t).2 value
  | _ => false

/-- The parts of the `http.Request` the binder reads.  `body` abstracts
`requestBody` plus the `encoding/json` decode of `decodeJSON` (library
code outside this repository): it rewrites the struct state or fails
with a message, and every failure there surfaces as a 400. -/
structure Request where
  headers : List (String × List String)
  contentLength : Int
  body : TopState → Except String TopState
  form : List (String × List String)
  query : List (String × List String)

/-- `binder` plus its `reflector`: the schema of the params struct, the
two maps built by `parseStructTags`, the registered custom parsers and
defaulters, the request, and the route parameter names and values. -/
structure Binder where
  schema : List GoField
  maps : RMaps
  parsers : ScalarType → Option GoParserFn
  defaulters : FieldType → Option (String → String)
  req : Request
  routeParamKeys : List String
  routeParamValues : List String

/-- `newBinder`/`newReflector` with no custom types registered. -/
def newBinder (schema : List GoField) (req : Request)
    (keys vals : List String) : Binder :=
  ⟨schema, parseStructTags schema ⟨[], []⟩, fun _ => none, fun _ => none, req, keys, vals⟩

/-- The outcome of a binder operation: a new struct state, an
`HTTPError` returned to the caller, or a Go panic. -/
inductive BRes (α : Type) where
  | ok (a : α)
  | err (e : HTTPError)
  | panicked (msg : String)

/-- `binder.setField`: look up the wire name in the flat index; an
unknown name or a source the field does not accept is silently ignored;
otherwise resolve the field by Go field name on the top-level struct
(panicking, as `reflector.setField` does on a non-settable value, when
the name is not a field of the top-level struct), parse and assign,
turning a parse failure into a 400. -/
def Binder.setField (b : Binder) (st : TopState) (paramName paramValue : String)
    (source : ParamSource) : BRes TopState :=
  match mapLookup b.maps.paramFieldsByJsonName paramName with
  | none => .ok st
  | some fd =>
    if !(fd.CanSetFrom source) then .ok st
    else
      match fieldByName b.schema st fd.fieldName with
      | none => .panicked ("cannot set field " ++ fd.fieldName)
      | some cur =>
        match parseValueField b.parsers fd.ftype cur paramValue with
        | .ok v =>
          (match fieldUpdateByName b.schema st fd.fieldName v with
           | some st' => .ok st'
           | none => .panicked ("cannot set field " ++ fd.fieldName))
        | .perr m => .err (NewHTTPError 400 m)
        | .ppanic m => .panicked m

/-- The inner loop shared by the header/form/query stages: one
`setField` call per raw value. -/
def Binder.setValues (b : Binder) (source : ParamSource) (k : String) :
    List String → TopState → BRes TopState
  | [], st => .ok st
  | v :: vs, st =>
    match b.setField st k v source with
    | .ok st' => b.setValues source k vs st'
    | .err e => .err e
    | .panicked m => .panicked m

/-- The outer loop shared by the header/form/query stages. -/
def Binder.setFromKVs (b : Binder) (source : ParamSource) :
    List (String × List String) → TopState → BRes TopState
  | [], st => .ok st
  | (k, vs) :: rest, st =>
    match b.setValues source k vs st with
    | .ok st' => b.setFromKVs source rest st'
    | .err e => .err e
    | .panicked m => .panicked m

/-- `binder.setFromHeaders`: each header key is lower-cased before the
lookup. -/
def Binder.setFromHeaders (b : Binder) (st : TopState) : BRes TopState :=
  b.setFromKVs .header (b.req.headers.map (fun p => (strToLower p.1, p.2))) st

/-- Go `http.Header.Get`: the first value under the key, or empty. -/
def headerGet (headers : List (String × List String)) (k : String) : String :=
  match mapLookup headers k with
  | some (v :: _) => v
  | _ => ""

/-- `binder.setFromJSONBody`: a no-op without a declared body; with one,
a Content-Type that does not start with application/json is a 415, and
otherwise the abstracted read+decode runs, with failures as 400s. -/
def Binder.setFromJSONBody (b : Binder) (st : TopState) : BRes TopState :=
  if b.req.contentLength = 0 then .ok st
  else
    let ctype := headerGet b.req.headers "Content-Type"
    if goHasPre ctype "application/json" then
      match b.req.body st with
      | .ok st' => .ok st'
      | .error msg => .err (NewHTTPError 400 msg)
    else .err (NewHTTPError 415 "")

/-- `binder.setFromForm`. -/
def Binder.setFromForm (b : Binder) (st : TopState) : BRes TopState :=
  if b.req.form.length = 0 then .ok st
  else b.setFromKVs .form b.req.form st

/-- `binder.setFromQueryParams`. -/
def Binder.setFromQueryParams (b : Binder) (st : TopState) : BRes TopState :=
  b.setFromKVs .query b.req.query st

/-- The loop of `binder.setFromPathParams`: values are indexed by the
position of the key, and a missing index is a Go slice-bounds panic. -/
def Binder.setFromPathParamsAux (b : Binder) : List String → Nat → TopState → BRes TopState
  | [], _, st => .ok st
  | k :: ks, i, st =>
    match b.routeParamValues.get? i with
    | none => .panicked "runtime error: index out of range"
    | some v =>
      match b.setField st k v .path with
      | .ok st' => b.setFromPathParamsAux ks (i + 1) st'
      | .err e => .err e
      | .panicked m => .panicked m

/-- `binder.setFromPathParams`. -/
def Binder.setFromPathParams (b : Binder) (st : TopState) : BRes TopState :=
  b.setFromPathParamsAux b.routeParamKeys 0 st

/-- The defaulter transform: `b.typeDefaulters[fieldDef.Type]`. -/
def applyDefaulter (b : Binder) (ft : FieldType) (d : String) : String :=
  match b.defaulters ft with
  | some g => g d
  | none => d

/-- The per-field body of `binder.setFromDefaults`: skip fields without
a default tag; otherwise transform through the defaulter, fetch the
field (a missing name models the non-settable zero value, a panic in
`reflector.setField`), parse and assign — and turn a parse error into
the invalid-default panic. -/
def Binder.setDefaultForField (b : Binder) (st : TopState) (name : String)
    (tags : List (String × String)) (ft : FieldType) : BRes TopState :=
  let d := tagGet tags "default"
  if d = "" then .ok st
  else
    let d' := applyDefaulter b ft d
    match lookupVal st name with
    | none => .panicked ("cannot set field " ++ name)
    | some cur =>
      match parseValueField b.parsers ft cur d' with
      | .ok v => .ok (updateVal st name v)
      | .perr m => .panicked ("Invalid default value, change the struct def: " ++ m)
      | .ppanic m => .panicked m

/-- `binder.setFromDefaults` on the members of a nested struct. -/
def Binder.setFromDefaultsInner (b : Binder) : List InnerField → TopState → BRes TopState
  | [], st => .ok st
  | f :: rest, st =>
    match b.setDefaultForField st f.name f.tags (.scalar f.ftype) with
    | .ok st' => b.setFromDefaultsInner rest st'
    | .err e => .err e
    | .panicked m => .panicked m

/-- The recursion step of `binder.setFromDefaults` for one field: when
the field's kind is struct, fetch the nested value and recurse into it,
writing the updated nested value back; any other kind is left alone.
(A state in which the name does not hold a struct value cannot arise
from a Go `reflect.Value` of the struct type; the model panics there,
as `reflect` itself would.) -/
def Binder.defaultsStructStep (b : Binder) (f : GoField) (st : TopState) : BRes TopState :=
  match f.ftype with
  | .structT inner =>
    (match lookupVal st f.name with
     | some (.vStruct ivals) =>
       (match b.setFromDefaultsInner inner ivals with
        | .ok ivals' => .ok (updateVal st f.name (.vStruct ivals'))
        | .err e => .err e
        | .panicked m => .panicked m)
     | _ => .panicked "reflect: NumField of invalid value")
  | _ => .ok st

/-- `binder.setFromDefaults`: for each field, recurse first when the
field's kind is struct (updating the nested value in place), then apply
the field's own default tag. -/
def Binder.setFromDefaults (b : Binder) : List GoField → TopState → BRes TopState
  | [], st => .ok st
  | f :: rest, st =>
    match b.defaultsStructStep f st with
    | .ok st1 =>
      (match b.setDefaultForField st1 f.name f.tags f.ftype with
       | .ok st2 => b.setFromDefaults rest st2
       | .err e => .err e
       | .panicked m => .panicked m)
    | .err e => .err e
    | .panicked m => .panicked m

/-- `binder.BindFromAll`: the six stages in their fixed order, stopping
at the first error; a panic propagates. -/
def Binder.BindFromAll (b : Binder) (st : TopState) : BRes TopState :=
  match b.setFromDefaults b.schema st with
  | .ok st1 =>
    (match b.setFromHeaders st1 with
     | .ok st2 =>
       (match b.setFromJSONBody st2 with
        | .ok st3 =>
          (match b.setFromForm st3 with
           | .ok st4 =>
             (match b.setFromQueryParams st4 with
              | .ok st5 => b.setFromPathParams st5
              | .err e => .err e
              | .panicked m => .panicked m)
           | .err e => .err e
           | .panicked m => .panicked m)
        | .err e => .err e
        | .panicked m => .panicked m)
     | .err e => .err e
     | .panicked m => .panicked m)
  | .err e => .err e
  | .panicked m => .panicked m

/-- Shape agreement between a field's declared type and the value it
holds: a nested-struct field holds a struct value carrying exactly the
member names, in order.  (Any value of any other type agrees.) -/
def alignedFieldVal : FieldType → Value → Bool
  | .structT inner, .vStruct ivals => ivals.map Prod.fst == inner.map InnerField.name
  | .structT _, _ => false
  | _, _ => true

/-- Every schema field can be found in the state, holding a value of
the right shape.  Every state a Go `reflect.Value` of the struct type
can take satisfies this; the model's theorems carry it as an explicit
hypothesis. -/
def fieldsPresent (fs : List GoField) (st : TopState) : Bool :=
  fs.all (fun f =>
    match lookupVal st f.name with
    | some v => alignedFieldVal f.ftype v
    | none => false)

def nodupKeys : List String → Bool
  | [] => true
  | n :: rest => !(rest.contains n) && nodupKeys rest

def noDefaultTagsInner (fs : List InnerField) : Bool :=
  fs.all (fun f => tagGet f.tags "default" == "")

/-- No field reachable by the defaults walk carries a default tag. -/
def noDefaultTags (fs : List GoField) : Bool :=
  fs.all (fun f =>
    (match f.ftype with
     | .structT inner => noDefaultTagsInner inner
     | _ => true) && tagGet f.tags "default" == "")

def fieldDefaultOk (b : Binder) (tags : List (String × String)) (ft : FieldType) : Bool :=
  let d := tagGet tags "default"
  d == "" || parseSucceeds b.parsers ft (applyDefaulter b ft d)

def defaultsOkInner (b : Binder) (fs : List InnerField) : Bool :=
  fs.all (fun f => fieldDefaultOk b f.tags (.scalar f.ftype))

/-- Every default tag reachable by the defaults walk parses at its
field's type. -/
def defaultsOk (b : Binder) (fs : List GoField) : Bool :=
  fs.all (fun f =>
    (match f.ftype with
     | .structT inner => defaultsOkInner b inner
     | _ => true) && fieldDefaultOk b f.tags f.ftype)

/-- `fieldMapper.mapAndFlushRun`: nothing for an empty run, otherwise
the mapped name — the Go map read yields the empty string for a name
absent from the index. -/
def flushRun (lookup : List (String × String)) (run : List Char) : String :=
  if run.isEmpty then "" else (mapLookup lookup (String.mk run)).getD ""

/-- The byte loop of `fieldMapper.Map`: a dot flushes the pending name
run and is copied; an opening bracket flushes and starts an index run;
a closing bracket ends it; characters inside an index run are copied
verbatim; all other characters extend the pending name run, which is
flushed once more at the end. -/
def fieldMapperGo (lookup : List (String × String)) :
    List Char → String → List Char → Bool → String
  | [], buf, run, _ => buf ++ flushRun lookup run
  | c :: cs, buf, run, inIdx =>
    if c = '.' then fieldMapperGo lookup cs (buf ++ flushRun lookup run ++ ".") [] inIdx
    else if c = '[' then fieldMapperGo lookup cs (buf ++ flushRun lookup run ++ "[") [] true
    else if c = ']' then fieldMapperGo lookup cs (buf ++ "]") run false
    else if inIdx then fieldMapperGo lookup cs (buf ++ String.mk [c]) run inIdx
    else fieldMapperGo lookup cs buf (run ++ [c]) inIdx

/-- `reflector.MapFieldNameToParamName` (via `fieldMapper.Map`), over
the field-name-to-wire-name index. -/
def MapFieldNameToParamName (lookup : List (String × String)) (fieldName : String) : String :=
  fieldMapperGo lookup fieldName.data "" [] false

/-- The Go map read `f.lookup[string(run)]`: empty string on a miss. -/
def wireLookup (lookup : List (String × String)) (s : String) : String :=
  (mapLookup lookup s).getD ""

/-- A path segment with none of the three structural characters. -/
def plainSeg (s : String) : Bool :=
  s.data.all (fun c => c ≠ '.' && c ≠ '[' && c ≠ ']')

/-- The params struct of claim C9: a non-anonymous nested struct whose
member carries a recognized source tag. -/
def schemaC9 : List GoField :=
  [⟨"Nest", [("json", "nest")], false, .structT [⟨"B", [("json", "b")], .tInt⟩]⟩]

/-- A request supplying a query parameter under the nested member's
wire name. -/
def requestC9 : Request :=
  ⟨[], 0, fun st => .ok st, [], [("b", ["1"])]⟩

def binderC9 : Binder := newBinder schemaC9 requestC9 [] []

/-- A request with no input at all (used by witness fixtures). -/
def emptyRequest : Request := ⟨[], 0, fun st => .ok st, [], []⟩

/-- Witness fixture for C1: a universal (json-sourced) int field set by
both a query parameter and a path parameter under the wire name x. -/
def schemaC1w : List GoField :=
  [⟨"Field1", [("json", "x")], false, .scalar .tInt⟩]

def binderC1w : Binder :=
  newBinder schemaC1w ⟨[], 0, fun st => .ok st, [], [("x", ["5"])]⟩ ["x"] ["7"]

/-- Witness fixture for C2: a path-restricted string field and a
universal json string field. -/
def schemaC2w : List GoField :=
  [⟨"Wibble", [("path", "wibble")], false, .scalar .tString⟩,
   ⟨"U", [("json", "u")], false, .scalar .tString⟩]

def binderC2w : Binder := newBinder schemaC2w emptyRequest [] []

/-- Counterexample fixture for C3: a declared body whose Content-Type
starts with application/json but is not exactly application/json. -/
def binderC3cx : Binder :=
  newBinder [] ⟨[("Content-Type", ["application/json; charset=utf-8"])], 5,
    fun st => .ok st, [], []⟩ [] []

/-- Witness fixture for C3 (amended): an xml body. -/
def binderC3xml : Binder :=
  newBinder [] ⟨[("Content-Type", ["application/xml"])], 5,
    fun st => .ok st, [], []⟩ [] []

/-- Witness fixtures for C7: an int field with an unparseable default,
and string/int fields with good defaults. -/
def schemaC7bad : List GoField :=
  [⟨"A", [("default", "abc")], false, .scalar .tInt⟩]

def binderC7bad : Binder := newBinder schemaC7bad emptyRequest [] []

def schemaC7good : List GoField :=
  [⟨"S", [("default", "hi")], false, .scalar .tString⟩,
   ⟨"I", [("default", "5")], false, .scalar .tInt⟩]

def binderC7good : Binder := newBinder schemaC7good emptyRequest [] []

/-- Witness fixture for C8: a string-slice field bound from the query,
submitted three times under its wire name. -/
def schemaC8w : List GoField :=
  [⟨"Tags", [("json", "tag")], false, .scalar .tSliceString⟩]

def binderC8w : Binder :=
  newBinder schemaC8w ⟨[], 0, fun st => .ok st, [], [("tag", ["x", "y", "z"])]⟩ [] []

end Apiparams

/-!
## Theorems

Helper lemmas first, then one theorem per claim (with witnesses where the
theorem carries hypotheses).
-/

namespace GoValidator

theorem containsStr_iff (xs : List String) (e : String) :
    containsStr xs e = true ↔ e ∈ xs := by
  simp [containsStr, List.any_eq_true, beq_iff_eq]

theorem validateEnumImplSlice_ok_iff (ss choices : List String) :
    validateEnumImplSlice ss choices = .ok ↔ ∀ s ∈ ss, s ∈ choices := by
  induction ss with
  | nil => simp [validateEnumImplSlice]
  | cons s rest ih =>
    simp only [validateEnumImplSlice]
    by_cases hc : containsStr choices s = true
    · rw [if_neg (by simp [hc])]
      rw [ih]
      simp [List.forall_mem_cons, (containsStr_iff choices s).mp hc]
    · rw [if_pos (by simp [Bool.not_eq_true] at hc ⊢; exact hc)]
      constructor
      · intro hx; exact absurd hx (by simp)
      · intro hall
        exact absurd ((containsStr_iff choices s).mpr (hall s (by simp))) hc

theorem validateEnumImplStr_ok_iff (s : String) (choices : List String) (isOpt : Bool)
    (hs : s ≠ "") :
    validateEnumImplStr s choices isOpt = .ok ↔ s ∈ choices := by
  simp only [validateEnumImplStr, if_neg hs]
  by_cases hc : containsStr choices s = true
  · simp [hc, (containsStr_iff choices s).mp hc]
  · rw [if_neg hc]
    simp only [containsStr_iff] at hc
    simp [hc]

end GoValidator

/-- Claim C4: for the enum validation rule, membership is
case-insensitive; applied to a string-slice value every element must be
one of the choices and the empty slice always passes; a rule parameter
with a trailing opt marker applied to a string slice yields the
bad-parameter error instead of validating; and a scalar empty string
fails unless the opt marker is present. -/
theorem C4_enum_rule (param : String) (choices : List String) (isOpt : Bool)
    (h : GoValidator.splitOptionalVal param = .ok (choices, isOpt)) :
    (∀ s : String, s ≠ "" →
      (GoValidator.validateCaseInsensitiveEnum (.vStr s) param = .ok ↔
        GoStrings.strToLower s ∈ choices.map GoStrings.strToLower))
  ∧ (isOpt = false → ∀ ss : List String,
      (GoValidator.validateCaseInsensitiveEnum (.vStrSlice ss) param = .ok ↔
        ∀ s ∈ ss, GoStrings.strToLower s ∈ choices.map GoStrings.strToLower))
  ∧ (isOpt = false → GoValidator.validateCaseInsensitiveEnum (.vStrSlice []) param = .ok)
  ∧ (isOpt = true → ∀ ss : List String,
      GoValidator.validateCaseInsensitiveEnum (.vStrSlice ss) param = .badParameter)
  ∧ GoValidator.validateCaseInsensitiveEnum (.vStr "") param =
      (if isOpt then .ok else .textErr "empty string") := by
  unfold GoValidator.validateCaseInsensitiveEnum GoValidator.validateEnumImpl
  rw [h]
  refine ⟨?_, ?_, ?_, ?_, ?_⟩
  · intro s hs
    have hs' : GoStrings.strToLower s ≠ "" := by
      intro hx; exact hs ((GoStrings.strToLower_eq_empty_iff s).mp hx)
    exact GoValidator.validateEnumImplStr_ok_iff _ _ _ hs'
  · rintro rfl ss
    simp only [if_neg (by simp : ¬(false = true))]
    rw [GoValidator.validateEnumImplSlice_ok_iff]
    simp
  · rintro rfl
    simp [GoValidator.validateEnumImplSlice]
  · rintro rfl ss
    simp
  · have h0 : GoStrings.strToLower "" = "" := rfl
    cases isOpt with
    | true => simp [GoValidator.validateEnumImplStr, h0]
    | false => simp [GoValidator.validateEnumImplStr, h0]

/-- Witness for C4, at the spec's own examples: the rule string a|b on
the slice value [a, b, c] fails because c is not a member; with opt it is
the bad-parameter error; B passes case-insensitively; the empty scalar
string fails without opt and passes with it. -/
theorem C4_enum_rule_witness :
    GoValidator.validateCaseInsensitiveEnum (.vStrSlice ["a", "b", "c"]) "a|b" ≠ .ok
  ∧ GoValidator.validateCaseInsensitiveEnum (.vStrSlice ["a", "b", "c"]) "a|b|opt" = .badParameter
  ∧ GoValidator.validateCaseInsensitiveEnum (.vStr "B") "a|b" = .ok
  ∧ GoValidator.validateCaseInsensitiveEnum (.vStr "") "a|b" = .textErr "empty string"
  ∧ GoValidator.validateCaseInsensitiveEnum (.vStr "") "a|b|opt" = .ok := by
  have h1 := C4_enum_rule "a|b" ["a", "b"] false rfl
  have h2 := C4_enum_rule "a|b|opt" ["a", "b"] true rfl
  refine ⟨?_, h2.2.2.2.1 rfl _, ?_, ?_, ?_⟩
  · intro hx
    have := (h1.2.1 rfl ["a", "b", "c"]).mp hx "c" (by decide)
    revert this; decide
  · exact (h1.1 "B" (by decide)).mpr (by decide)
  · simpa using h1.2.2.2.2
  · simpa using h2.2.2.2.2

/-- Claim C5: a string checked by the uuid4 rule passes exactly when the
loose prefix-anchored pattern matches — at least 32 characters, the
first 32 all hex digits or dashes — except that the empty string passes
exactly when the rule parameter is opt; the match never constrains the
total length or the characters after the matched section (appending any
suffix to a matching string preserves the match); and a nil string
pointer always passes. -/
theorem C5_uuid4_rule :
    (∀ s param : String, GoValidator.validateUUID4 (.vStr s) param = .ok ↔
      ((s = "" ∧ param = "opt") ∨ (s ≠ "" ∧ GoValidator.uuid4RegexpMatches s = true)))
  ∧ (∀ param : String, GoValidator.validateUUID4 .vStrPtrNil param = .ok)
  ∧ (∀ s t : String, GoValidator.uuid4RegexpMatches s = true →
      GoValidator.uuid4RegexpMatches (s ++ t) = true)
  ∧ (∀ s : String, GoValidator.uuid4RegexpMatches s = true ↔
      (32 ≤ s.data.length ∧ ∀ c ∈ s.data.take 32, GoValidator.isUuid4PatternChar c = true)) := by
  refine ⟨?_, ?_, ?_, ?_⟩
  · intro s param
    simp only [GoValidator.validateUUID4, GoValidator.makeStringValidator]
    by_cases hs : s = ""
    · subst hs
      simp only [if_pos rfl]
      by_cases hp : param = GoValidator.optionalKeyword
      · simp [hp, GoValidator.optionalKeyword]
      · rw [if_neg hp]
        simp [GoValidator.ErrInvalidUUID4, GoValidator.optionalKeyword] at hp ⊢
        exact hp
    · rw [if_neg hs]
      by_cases hm : GoValidator.uuid4RegexpMatches s = true
      · simp [hm, hs]
      · simp only [Bool.not_eq_true] at hm
        simp [hm, hs, GoValidator.ErrInvalidUUID4]
  · intro param; rfl
  · intro s t hm
    simp only [GoValidator.uuid4RegexpMatches, Bool.and_eq_true, decide_eq_true_eq,
      List.all_eq_true] at hm ⊢
    obtain ⟨hlen, hall⟩ := hm
    have hdata : (s ++ t).data = s.data ++ t.data := by
      cases s; cases t; rfl
    rw [hdata]
    constructor
    · calc (32 : ℕ) ≤ s.data.length := hlen
        _ ≤ (s.data ++ t.data).length := by simp
    · intro c hc
      apply hall
      rwa [List.take_append_of_le_length hlen] at hc
  · intro s
    simp [GoValidator.uuid4RegexpMatches, List.all_eq_true]

/-- Witness for C5: a 32-hex-character string with trailing garbage and
extra length still passes the uuid4 rule, a dashed standard UUID passes,
the empty string passes only under opt, and the nil pointer passes. -/
theorem C5_uuid4_rule_witness :
    GoValidator.uuid4RegexpMatches "0123456789abcdef0123456789ABCDEF" = true
  ∧ GoValidator.validateUUID4 (.vStr ("0123456789abcdef0123456789ABCDEF" ++ "zz!")) "x" = .ok
  ∧ GoValidator.validateUUID4 (.vStr "4dff66b4-f3e9-4278-9b4e-64b03c1e7755") "x" = .ok
  ∧ GoValidator.validateUUID4 (.vStr "") "x" ≠ .ok
  ∧ GoValidator.validateUUID4 (.vStr "") "opt" = .ok
  ∧ GoValidator.validateUUID4 .vStrPtrNil "x" = .ok := by
  have h := C5_uuid4_rule
  refine ⟨by decide, ?_, ?_, ?_, ?_, h.2.1 "x"⟩
  · exact (h.1 _ "x").mpr (Or.inr ⟨by decide, h.2.2.1 _ "zz!" (by decide)⟩)
  · exact (h.1 _ "x").mpr (Or.inr ⟨by decide, by decide⟩)
  · intro hx
    rcases (h.1 "" "x").mp hx with ⟨_, hbad⟩ | ⟨hbad, _⟩
    · exact absurd hbad (by decide)
    · exact hbad rfl
  · exact (h.1 "" "opt").mpr (Or.inl ⟨rfl, rfl⟩)

/-- Claim C6: for the comparenow rule with relation gt and an injected
clock reading now, every field time strictly after now passes and every
field time at or before now fails with the before-or-at-now violation. -/
theorem C6_comparenow_gt (now : Int) :
    (∀ t : Int, now < t →
      GoValidator.makeValidateCompareNow now (.vTime t) "gt" = .ok)
  ∧ (∀ t : Int, t ≤ now →
      GoValidator.makeValidateCompareNow now (.vTime t) "gt" = .textErr "before or at now") := by
  have hsplit : GoValidator.splitOptionalVal "gt" = .ok (["gt"], false) := rfl
  constructor
  · intro t ht
    simp only [GoValidator.makeValidateCompareNow, hsplit]
    have hne : t ≠ now := by omega
    have hnlt : ¬t < now := by omega
    simp [Kronos.Compare, hne, hnlt]
  · intro t ht
    simp only [GoValidator.makeValidateCompareNow, hsplit]
    by_cases he : t = now
    · simp [Kronos.Compare, he]
    · have hlt : t < now := by omega
      simp [Kronos.Compare, he, hlt]

/-- Witness for C6 at the spec's example: with now injected, a value one
hour earlier fails with the before-or-at-now condition and a value one
hour later passes (now is 2012-11-22T06:38:12Z as Unix seconds). -/
theorem C6_comparenow_gt_witness :
    GoValidator.makeValidateCompareNow 1353566292 (.vTime (1353566292 - 3600)) "gt"
      = .textErr "before or at now"
  ∧ GoValidator.makeValidateCompareNow 1353566292 (.vTime (1353566292 + 3600)) "gt" = .ok :=
  ⟨(C6_comparenow_gt 1353566292).2 _ (by norm_num),
   (C6_comparenow_gt 1353566292).1 _ (by norm_num)⟩

namespace Apiparams

theorem not_mem_of_contains_eq_false {l : List String} {a : String}
    (h : l.contains a = false) : a ∉ l := by
  intro hm
  have hc : l.contains a = true := List.elem_eq_true_of_mem hm
  rw [hc] at h
  cases h

theorem mapLookup_cons {α : Type} (p : String × α) (rest : List (String × α)) (nm : String) :
    mapLookup (p :: rest) nm = if p.1 == nm then some p.2 else mapLookup rest nm := by
  simp only [mapLookup, List.find?_cons]
  cases h : (p.1 == nm) <;> simp [h]

theorem lookupVal_cons (p : String × Value) (rest : TopState) (nm : String) :
    lookupVal (p :: rest) nm = if p.1 == nm then some p.2 else lookupVal rest nm :=
  mapLookup_cons p rest nm

theorem updateVal_cons (p : String × Value) (rest : TopState) (nm : String) (v : Value) :
    updateVal (p :: rest) nm v =
      (if p.1 == nm then (nm, v) else p) :: updateVal rest nm v := by
  simp [updateVal]

theorem updateVal_keys (st : TopState) (nm : String) (v : Value) :
    (updateVal st nm v).map Prod.fst = st.map Prod.fst := by
  induction st with
  | nil => rfl
  | cons p rest ih =>
    rw [updateVal_cons]
    simp only [List.map_cons, ih]
    by_cases h : (p.1 == nm) = true
    · rw [if_pos h]
      simp [eq_of_beq h]
    · rw [if_neg h]

theorem lookupVal_updateVal_self (st : TopState) (nm : String) (v : Value)
    (h : (lookupVal st nm).isSome) :
    lookupVal (updateVal st nm v) nm = some v := by
  induction st with
  | nil => simp [lookupVal, mapLookup] at h
  | cons p rest ih =>
    rw [updateVal_cons]
    by_cases hp : (p.1 == nm) = true
    · rw [if_pos hp, lookupVal_cons]
      simp
    · rw [if_neg hp, lookupVal_cons, if_neg hp]
      rw [lookupVal_cons, if_neg hp] at h
      exact ih h

theorem lookupVal_updateVal_ne (st : TopState) (nm nm' : String) (v : Value)
    (h : nm' ≠ nm) :
    lookupVal (updateVal st nm v) nm' = lookupVal st nm' := by
  induction st with
  | nil => rfl
  | cons p rest ih =>
    rw [updateVal_cons]
    by_cases hp : (p.1 == nm) = true
    · rw [if_pos hp, lookupVal_cons, lookupVal_cons]
      have h1 : (nm == nm') = false := by
        simp [beq_eq_false_iff_ne]
        exact fun hx => h hx.symm
      have h2 : (p.1 == nm') = false := by
        simp [beq_eq_false_iff_ne]
        intro hx
        exact h (hx ▸ eq_of_beq hp)
      rw [if_neg (by simp [h1]), if_neg (by simp [h2])]
      exact ih
    · rw [if_neg hp, lookupVal_cons, lookupVal_cons]
      by_cases hq : (p.1 == nm') = true
      · rw [if_pos hq, if_pos hq]
      · rw [if_neg hq, if_neg hq]
        exact ih

theorem updateVal_of_not_mem (st : TopState) (nm : String) (v : Value)
    (h : nm ∉ st.map Prod.fst) : updateVal st nm v = st := by
  induction st with
  | nil => rfl
  | cons p rest ih =>
    simp only [List.map_cons, List.mem_cons] at h
    push_neg at h
    rw [updateVal_cons, if_neg (by simp [beq_eq_false_iff_ne]; exact fun hx => h.1 hx.symm)]
    rw [ih h.2]

theorem updateVal_self_noop (st : TopState) (nm : String) (v : Value)
    (hk : nodupKeys (st.map Prod.fst) = true)
    (h : lookupVal st nm = some v) : updateVal st nm v = st := by
  induction st with
  | nil => rfl
  | cons p rest ih =>
    simp only [List.map_cons, nodupKeys, Bool.and_eq_true, Bool.not_eq_true'] at hk
    obtain ⟨hc, hk'⟩ := hk
    rw [lookupVal_cons] at h
    rw [updateVal_cons]
    by_cases hp : (p.1 == nm) = true
    · rw [if_pos hp] at h ⊢
      have hnm : p.1 = nm := eq_of_beq hp
      have hv : p.2 = v := by simpa using h
      have hnotmem : nm ∉ rest.map Prod.fst := hnm ▸ not_mem_of_contains_eq_false hc
      rw [updateVal_of_not_mem rest nm v hnotmem, ← hnm, ← hv]
    · rw [if_neg hp] at h ⊢
      rw [ih hk' h]

theorem lookupVal_isSome_of_mem (st : TopState) (nm : String)
    (h : nm ∈ st.map Prod.fst) : (lookupVal st nm).isSome := by
  induction st with
  | nil => simp at h
  | cons p rest ih =>
    rw [lookupVal_cons]
    by_cases hp : (p.1 == nm) = true
    · rw [if_pos hp]; rfl
    · rw [if_neg hp]
      simp only [List.map_cons, List.mem_cons] at h
      rcases h with h | h
      · exact absurd (by simp [h] : (p.1 == nm) = true) hp
      · exact ih h

theorem zeroState_keys (fs : List GoField) :
    (zeroState fs).map Prod.fst = fs.map GoField.name := by
  simp [zeroState, List.map_map, Function.comp]

theorem alignedFieldVal_zero (ft : FieldType) :
    alignedFieldVal ft (zeroField ft) = true := by
  cases ft with
  | scalar t => rfl
  | structT inner => simp [zeroField, alignedFieldVal, List.map_map, Function.comp]
  | sliceStruct inner => rfl

theorem lookupVal_zeroState_of_mem (fs : List GoField) (f : GoField)
    (hnn : nodupKeys (fs.map GoField.name) = true) (hf : f ∈ fs) :
    lookupVal (zeroState fs) f.name = some (zeroField f.ftype) := by
  induction fs with
  | nil => simp at hf
  | cons g rest ih =>
    simp only [List.map_cons, nodupKeys, Bool.and_eq_true, Bool.not_eq_true'] at hnn
    obtain ⟨hc, hnn'⟩ := hnn
    rcases List.mem_cons.mp hf with rfl | hf'
    · simp [zeroState, lookupVal_cons]
    · have hne : (g.name == f.name) = false := by
        have hgm : g.name ∉ rest.map GoField.name := not_mem_of_contains_eq_false hc
        simp only [beq_eq_false_iff_ne, ne_eq]
        intro hx
        exact hgm (hx ▸ List.mem_map_of_mem _ hf')
      simp only [zeroState, List.map_cons]
      rw [lookupVal_cons, if_neg (by simp [hne])]
      exact ih hnn' hf'

theorem fieldsPresent_zero (fs : List GoField)
    (hnn : nodupKeys (fs.map GoField.name) = true) :
    fieldsPresent fs (zeroState fs) = true := by
  rw [fieldsPresent, List.all_eq_true]
  intro f hf
  rw [lookupVal_zeroState_of_mem fs f hnn hf]
  exact alignedFieldVal_zero f.ftype

end Apiparams

namespace Apiparams

theorem parseSucceedsCore_iff (P : ScalarType → Option GoParserFn) (fvt : ScalarType)
    (isPtr : Bool) (value : String) (cur : Value) :
    parseSucceedsCore P fvt isPtr value = true ↔
      ∃ w, parseValueCore P fvt isPtr cur value = .ok w := by
  simp only [parseSucceedsCore, parseValueCore]
  cases hp : P fvt with
  | some p =>
    cases hr : p value isPtr <;> simp [ofParserResult, hr]
  | none =>
    cases fvt with
    | tInt => cases hi : parseGoInt 64 value <;> simp [hi]
    | tInt64 => cases hi : parseGoInt 64 value <;> simp [hi]
    | tInt32 => cases hi : parseGoInt 32 value <;> simp [hi]
    | tString => simp
    | tBool => cases hb : parseGoBool value <;> simp [hb]
    | tSliceString =>
      cases he : parseStringElem P value with
      | ok v => cases v <;> simp
      | perr m => simp
      | ppanic m => simp
    | tSliceInt =>
      cases he : parseIntElem P value with
      | ok v => cases v <;> simp
      | perr m => simp
      | ppanic m => simp
    | tPtr u => simp

theorem parseSucceeds_iff (P : ScalarType → Option GoParserFn) (ft : FieldType)
    (value : String) (cur : Value) :
    parseSucceeds P ft value = true ↔ ∃ w, parseValueField P ft cur value = .ok w := by
  cases ft with
  | scalar t => exact parseSucceedsCore_iff P (stripPtr t).1 (stripPtr t).2 value cur
  | structT fields => simp [parseSucceeds, parseValueField]
  | sliceStruct fields => simp [parseSucceeds, parseValueField]

end Apiparams

namespace Apiparams

theorem fieldsPresent_iff (fs : List GoField) (st : TopState) :
    fieldsPresent fs st = true ↔
      ∀ f ∈ fs, ∃ v, lookupVal st f.name = some v ∧ alignedFieldVal f.ftype v = true := by
  rw [fieldsPresent, List.all_eq_true]
  constructor <;> intro h f hf
  · have hx := h f hf
    cases hl : lookupVal st f.name with
    | none => rw [hl] at hx; cases hx
    | some v => rw [hl] at hx; exact ⟨v, rfl, hx⟩
  · obtain ⟨v, hv, ha⟩ := h f hf
    rw [hv]
    exact ha

theorem present_after_update (rest : List GoField) (st : TopState) (nm : String) (v : Value)
    (hnm : nm ∉ rest.map GoField.name)
    (hp : ∀ g ∈ rest, ∃ w, lookupVal st g.name = some w ∧ alignedFieldVal g.ftype w = true) :
    ∀ g ∈ rest, ∃ w, lookupVal (updateVal st nm v) g.name = some w ∧
      alignedFieldVal g.ftype w = true := by
  intro g hg
  obtain ⟨w, hw, ha⟩ := hp g hg
  have hne : g.name ≠ nm := fun hx => hnm (hx ▸ List.mem_map_of_mem _ hg)
  exact ⟨w, (lookupVal_updateVal_ne st nm g.name v hne).trans hw, ha⟩

theorem setDefaultForField_ne_err (b : Binder) (st : TopState) (name : String)
    (tags : List (String × String)) (ft : FieldType) (e : HTTPError) :
    b.setDefaultForField st name tags ft ≠ .err e := by
  simp only [Binder.setDefaultForField]
  split
  · simp
  · split
    · simp
    · split <;> simp

theorem setDefaultForField_skip (b : Binder) (st : TopState) (name : String)
    (tags : List (String × String)) (ft : FieldType)
    (h : tagGet tags "default" = "") :
    b.setDefaultForField st name tags ft = .ok st := by
  simp [Binder.setDefaultForField, h]

theorem setDefaultForField_ok (b : Binder) (st : TopState) (name : String)
    (tags : List (String × String)) (ft : FieldType)
    (hok : fieldDefaultOk b tags ft = true)
    (hmem : (lookupVal st name).isSome) :
    ∃ st', b.setDefaultForField st name tags ft = .ok st' ∧
      (st' = st ∨ ∃ v, st' = updateVal st name v) := by
  by_cases hd : tagGet tags "default" = ""
  · exact ⟨st, setDefaultForField_skip b st name tags ft hd, Or.inl rfl⟩
  · obtain ⟨cur, hcur⟩ := Option.isSome_iff_exists.mp hmem
    have hbeq : (tagGet tags "default" == "") = false := by
      simp [beq_eq_false_iff_ne]
      exact hd
    have hps : parseSucceeds b.parsers ft
        (applyDefaulter b ft (tagGet tags "default")) = true := by
      simpa [fieldDefaultOk, hbeq] using hok
    obtain ⟨w, hw⟩ := (parseSucceeds_iff b.parsers ft _ cur).mp hps
    refine ⟨updateVal st name w, ?_, Or.inr ⟨w, rfl⟩⟩
    simp only [Binder.setDefaultForField, if_neg hd, hcur, hw]

theorem setDefaultForField_panics (b : Binder) (st : TopState) (name : String)
    (tags : List (String × String)) (ft : FieldType)
    (hbad : fieldDefaultOk b tags ft = false)
    (hmem : (lookupVal st name).isSome) :
    ∃ m, b.setDefaultForField st name tags ft = .panicked m := by
  have hd : ¬(tagGet tags "default" = "") := by
    intro h
    simp [fieldDefaultOk, h] at hbad
  have hbeq : (tagGet tags "default" == "") = false := by
    simp [beq_eq_false_iff_ne]
    exact hd
  have hps : parseSucceeds b.parsers ft
      (applyDefaulter b ft (tagGet tags "default")) = false := by
    simpa [fieldDefaultOk, hbeq] using hbad
  obtain ⟨cur, hcur⟩ := Option.isSome_iff_exists.mp hmem
  cases hw : parseValueField b.parsers ft cur (applyDefaulter b ft (tagGet tags "default")) with
  | ok w =>
    have := (parseSucceeds_iff b.parsers ft _ cur).mpr ⟨w, hw⟩
    rw [hps] at this
    cases this
  | perr m =>
    exact ⟨"Invalid default value, change the struct def: " ++ m,
      by simp only [Binder.setDefaultForField, if_neg hd, hcur, hw]⟩
  | ppanic m =>
    exact ⟨m, by simp only [Binder.setDefaultForField, if_neg hd, hcur, hw]⟩

theorem setFromDefaultsInner_ne_err (b : Binder) :
    ∀ (fs : List InnerField) (vals : TopState) (e : HTTPError),
      b.setFromDefaultsInner fs vals ≠ .err e := by
  intro fs
  induction fs with
  | nil => intro vals e; simp [Binder.setFromDefaultsInner]
  | cons f rest ih =>
    intro vals e
    simp only [Binder.setFromDefaultsInner]
    cases hr : b.setDefaultForField vals f.name f.tags (.scalar f.ftype) with
    | ok st' => exact ih st' e
    | err e' => exact absurd hr (setDefaultForField_ne_err b vals f.name f.tags _ e')
    | panicked m => simp

theorem setFromDefaultsInner_noop (b : Binder) :
    ∀ (fs : List InnerField) (vals : TopState),
      noDefaultTagsInner fs = true → b.setFromDefaultsInner fs vals = .ok vals := by
  intro fs
  induction fs with
  | nil => intro vals _; rfl
  | cons f rest ih =>
    intro vals h
    rw [noDefaultTagsInner, List.all_cons, Bool.and_eq_true] at h
    simp only [Binder.setFromDefaultsInner]
    rw [setDefaultForField_skip b vals f.name f.tags _ (by simpa using h.1)]
    exact ih vals h.2

theorem setFromDefaultsInner_ok (b : Binder) :
    ∀ (fs : List InnerField) (vals : TopState),
      defaultsOkInner b fs = true →
      (∀ f ∈ fs, f.name ∈ vals.map Prod.fst) →
      ∃ vals', b.setFromDefaultsInner fs vals = .ok vals' ∧
        vals'.map Prod.fst = vals.map Prod.fst := by
  intro fs
  induction fs with
  | nil => intro vals _ _; exact ⟨vals, rfl, rfl⟩
  | cons f rest ih =>
    intro vals hok hmem
    rw [defaultsOkInner, List.all_cons, Bool.and_eq_true] at hok
    obtain ⟨st', h1, h2⟩ := setDefaultForField_ok b vals f.name f.tags (.scalar f.ftype)
      hok.1 (lookupVal_isSome_of_mem _ _ (hmem f (by simp)))
    have hkeys : st'.map Prod.fst = vals.map Prod.fst := by
      rcases h2 with rfl | ⟨v, rfl⟩
      · rfl
      · exact updateVal_keys vals f.name v
    have hok' : defaultsOkInner b rest = true := hok.2
    obtain ⟨vals', hv1, hv2⟩ := ih st' hok'
      (fun g hg => hkeys ▸ hmem g (by simp [hg]))
    refine ⟨vals', ?_, hv2.trans hkeys⟩
    simp only [Binder.setFromDefaultsInner, h1]
    exact hv1

theorem setFromDefaultsInner_panics (b : Binder) :
    ∀ (fs : List InnerField) (vals : TopState),
      defaultsOkInner b fs = false →
      (∀ f ∈ fs, f.name ∈ vals.map Prod.fst) →
      ∃ m, b.setFromDefaultsInner fs vals = .panicked m := by
  intro fs
  induction fs with
  | nil => intro vals h _; simp [defaultsOkInner] at h
  | cons f rest ih =>
    intro vals hbad hmem
    rw [defaultsOkInner, List.all_cons] at hbad
    by_cases hf : fieldDefaultOk b f.tags (.scalar f.ftype) = true
    · have hrest : defaultsOkInner b rest = false := by
        simpa [defaultsOkInner, hf] using hbad
      obtain ⟨st', h1, h2⟩ := setDefaultForField_ok b vals f.name f.tags (.scalar f.ftype)
        hf (lookupVal_isSome_of_mem _ _ (hmem f (by simp)))
      have hkeys : st'.map Prod.fst = vals.map Prod.fst := by
        rcases h2 with rfl | ⟨v, rfl⟩
        · rfl
        · exact updateVal_keys vals f.name v
      obtain ⟨m, hm⟩ := ih st' hrest (fun g hg => hkeys ▸ hmem g (by simp [hg]))
      refine ⟨m, ?_⟩
      simp only [Binder.setFromDefaultsInner, h1]
      exact hm
    · obtain ⟨m, hm⟩ := setDefaultForField_panics b vals f.name f.tags (.scalar f.ftype)
        (by simpa using hf) (lookupVal_isSome_of_mem _ _ (hmem f (by simp)))
      exact ⟨m, by simp only [Binder.setFromDefaultsInner, hm]⟩

end Apiparams

namespace Apiparams

theorem defaultsStructStep_ne_err (b : Binder) (f : GoField) (st : TopState) (e : HTTPError) :
    b.defaultsStructStep f st ≠ .err e := by
  simp only [Binder.defaultsStructStep]
  cases hft : f.ftype with
  | scalar t => simp
  | sliceStruct inner => simp
  | structT inner =>
    cases hl : lookupVal st f.name with
    | none => simp
    | some v =>
      cases v with
      | vStruct ivals =>
        cases hi : b.setFromDefaultsInner inner ivals with
        | ok i' => simp [hi]
        | err e' => exact absurd hi (setFromDefaultsInner_ne_err b inner ivals e')
        | panicked m => simp [hi]
      | vInt n => simp
      | vStr s => simp
      | vBool bb => simp
      | vSliceString xs => simp
      | vSliceInt xs => simp
      | vPtr p => simp
      | vStructSliceNil => simp

theorem defaultsStructStep_noop (b : Binder) (f : GoField) (st : TopState)
    (hnd : (match f.ftype with
            | .structT inner => noDefaultTagsInner inner
            | _ => true) = true)
    (hp : ∃ v, lookupVal st f.name = some v ∧ alignedFieldVal f.ftype v = true)
    (hk : nodupKeys (st.map Prod.fst) = true) :
    b.defaultsStructStep f st = .ok st := by
  simp only [Binder.defaultsStructStep]
  cases hft : f.ftype with
  | scalar t => rfl
  | sliceStruct inner => rfl
  | structT inner =>
    rw [hft] at hnd hp
    obtain ⟨v, hv, ha⟩ := hp
    cases v with
    | vStruct ivals =>
      simp only [hv, setFromDefaultsInner_noop b inner ivals hnd]
      rw [updateVal_self_noop st f.name (.vStruct ivals) hk hv]
    | vInt n => simp [alignedFieldVal] at ha
    | vStr s => simp [alignedFieldVal] at ha
    | vBool bb => simp [alignedFieldVal] at ha
    | vSliceString xs => simp [alignedFieldVal] at ha
    | vSliceInt xs => simp [alignedFieldVal] at ha
    | vPtr p => simp [alignedFieldVal] at ha
    | vStructSliceNil => simp [alignedFieldVal] at ha

theorem defaultsStructStep_ok (b : Binder) (f : GoField) (st : TopState)
    (hok : (match f.ftype with
            | .structT inner => defaultsOkInner b inner
            | _ => true) = true)
    (hp : ∃ v, lookupVal st f.name = some v ∧ alignedFieldVal f.ftype v = true) :
    ∃ st', b.defaultsStructStep f st = .ok st' ∧
      (st' = st ∨ ∃ v, st' = updateVal st f.name v) := by
  simp only [Binder.defaultsStructStep]
  cases hft : f.ftype with
  | scalar t => exact ⟨st, rfl, Or.inl rfl⟩
  | sliceStruct inner => exact ⟨st, rfl, Or.inl rfl⟩
  | structT inner =>
    rw [hft] at hok hp
    obtain ⟨v, hv, ha⟩ := hp
    cases v with
    | vStruct ivals =>
      have hmem : ∀ g ∈ inner, g.name ∈ ivals.map Prod.fst := by
        intro g hg
        have hkeys : ivals.map Prod.fst = inner.map InnerField.name := by
          simpa [alignedFieldVal] using ha
        rw [hkeys]
        exact List.mem_map_of_mem _ hg
      obtain ⟨ivals', hi1, _⟩ := setFromDefaultsInner_ok b inner ivals hok hmem
      simp only [hv, hi1]
      exact ⟨updateVal st f.name (.vStruct ivals'), rfl, Or.inr ⟨_, rfl⟩⟩
    | vInt n => simp [alignedFieldVal] at ha
    | vStr s => simp [alignedFieldVal] at ha
    | vBool bb => simp [alignedFieldVal] at ha
    | vSliceString xs => simp [alignedFieldVal] at ha
    | vSliceInt xs => simp [alignedFieldVal] at ha
    | vPtr p => simp [alignedFieldVal] at ha
    | vStructSliceNil => simp [alignedFieldVal] at ha

theorem defaultsStructStep_panics (b : Binder) (f : GoField) (st : TopState)
    (hbad : (match f.ftype with
             | .structT inner => defaultsOkInner b inner
             | _ => true) = false)
    (hp : ∃ v, lookupVal st f.name = some v ∧ alignedFieldVal f.ftype v = true) :
    ∃ m, b.defaultsStructStep f st = .panicked m := by
  simp only [Binder.defaultsStructStep]
  cases hft : f.ftype with
  | scalar t => rw [hft] at hbad; cases hbad
  | sliceStruct inner => rw [hft] at hbad; cases hbad
  | structT inner =>
    rw [hft] at hbad hp
    obtain ⟨v, hv, ha⟩ := hp
    cases v with
    | vStruct ivals =>
      have hmem : ∀ g ∈ inner, g.name ∈ ivals.map Prod.fst := by
        intro g hg
        have hkeys : ivals.map Prod.fst = inner.map InnerField.name := by
          simpa [alignedFieldVal] using ha
        rw [hkeys]
        exact List.mem_map_of_mem _ hg
      obtain ⟨m, hm⟩ := setFromDefaultsInner_panics b inner ivals hbad hmem
      simp only [hv, hm]
      exact ⟨m, rfl⟩
    | vInt n => simp [alignedFieldVal] at ha
    | vStr s => simp [alignedFieldVal] at ha
    | vBool bb => simp [alignedFieldVal] at ha
    | vSliceString xs => simp [alignedFieldVal] at ha
    | vSliceInt xs => simp [alignedFieldVal] at ha
    | vPtr p => simp [alignedFieldVal] at ha
    | vStructSliceNil => simp [alignedFieldVal] at ha

theorem setFromDefaults_ne_err (b : Binder) :
    ∀ (fs : List GoField) (st : TopState) (e : HTTPError),
      b.setFromDefaults fs st ≠ .err e := by
  intro fs
  induction fs with
  | nil => intro st e; simp [Binder.setFromDefaults]
  | cons f rest ih =>
    intro st e
    simp only [Binder.setFromDefaults]
    split
    next st1 h1 =>
      split
      next st2 h2 => exact ih st2 e
      next e' h2 => exact absurd h2 (setDefaultForField_ne_err b st1 f.name f.tags f.ftype e')
      next m h2 => simp
    next e' h1 => exact absurd h1 (defaultsStructStep_ne_err b f st e')
    next m h1 => simp

end Apiparams

namespace Apiparams

theorem setFromDefaults_noop (b : Binder) :
    ∀ (fs : List GoField) (st : TopState),
      noDefaultTags fs = true →
      fieldsPresent fs st = true →
      nodupKeys (st.map Prod.fst) = true →
      b.setFromDefaults fs st = .ok st := by
  intro fs
  induction fs with
  | nil => intro st _ _ _; rfl
  | cons f rest ih =>
    intro st hnd hp hk
    simp only [noDefaultTags, List.all_cons, Bool.and_eq_true] at hnd
    obtain ⟨⟨hnd1, hnd2⟩, hndr⟩ := hnd
    rw [fieldsPresent_iff] at hp
    have h1 := defaultsStructStep_noop b f st hnd1 (hp f (by simp)) hk
    have h2 := setDefaultForField_skip b st f.name f.tags f.ftype (by simpa using hnd2)
    simp only [Binder.setFromDefaults, h1, h2]
    exact ih st (by rw [noDefaultTags]; exact hndr)
      ((fieldsPresent_iff rest st).mpr (fun g hg => hp g (by simp [hg]))) hk

theorem setFromDefaults_ok (b : Binder) :
    ∀ (fs : List GoField) (st : TopState),
      defaultsOk b fs = true →
      (∀ f ∈ fs, ∃ v, lookupVal st f.name = some v ∧ alignedFieldVal f.ftype v = true) →
      nodupKeys (fs.map GoField.name) = true →
      ∃ st', b.setFromDefaults fs st = .ok st' := by
  intro fs
  induction fs with
  | nil => intro st _ _ _; exact ⟨st, rfl⟩
  | cons f rest ih =>
    intro st hok hp hnn
    simp only [defaultsOk, List.all_cons, Bool.and_eq_true] at hok
    obtain ⟨⟨hok1, hok2⟩, hokr⟩ := hok
    simp only [List.map_cons, nodupKeys, Bool.and_eq_true, Bool.not_eq_true'] at hnn
    obtain ⟨hc, hnn'⟩ := hnn
    have hfname : f.name ∉ rest.map GoField.name := not_mem_of_contains_eq_false hc
    obtain ⟨st1, h1, hu1⟩ := defaultsStructStep_ok b f st hok1 (hp f (by simp))
    have hfsome : (lookupVal st1 f.name).isSome := by
      obtain ⟨v0, hv0, _⟩ := hp f (by simp)
      rcases hu1 with rfl | ⟨v, rfl⟩
      · simp [hv0]
      · rw [lookupVal_updateVal_self st f.name v (by simp [hv0])]
        rfl
    obtain ⟨st2, h2, hu2⟩ := setDefaultForField_ok b st1 f.name f.tags f.ftype hok2 hfsome
    have hrest1 : ∀ g ∈ rest, ∃ v, lookupVal st1 g.name = some v ∧
        alignedFieldVal g.ftype v = true := by
      rcases hu1 with rfl | ⟨v, rfl⟩
      · exact fun g hg => hp g (by simp [hg])
      · exact present_after_update rest st f.name v hfname (fun g hg => hp g (by simp [hg]))
    have hrest2 : ∀ g ∈ rest, ∃ v, lookupVal st2 g.name = some v ∧
        alignedFieldVal g.ftype v = true := by
      rcases hu2 with rfl | ⟨v, rfl⟩
      · exact hrest1
      · exact present_after_update rest st1 f.name v hfname hrest1
    obtain ⟨st', h'⟩ := ih st2 (by rw [defaultsOk]; exact hokr) hrest2 hnn'
    refine ⟨st', ?_⟩
    simp only [Binder.setFromDefaults, h1, h2]
    exact h'

theorem setFromDefaults_panics (b : Binder) :
    ∀ (fs : List GoField) (st : TopState),
      defaultsOk b fs = false →
      (∀ f ∈ fs, ∃ v, lookupVal st f.name = some v ∧ alignedFieldVal f.ftype v = true) →
      nodupKeys (fs.map GoField.name) = true →
      ∃ m, b.setFromDefaults fs st = .panicked m := by
  intro fs
  induction fs with
  | nil => intro st h _ _; simp [defaultsOk] at h
  | cons f rest ih =>
    intro st hbad hp hnn
    simp only [List.map_cons, nodupKeys, Bool.and_eq_true, Bool.not_eq_true'] at hnn
    obtain ⟨hc, hnn'⟩ := hnn
    have hfname : f.name ∉ rest.map GoField.name := not_mem_of_contains_eq_false hc
    by_cases hok1 : (match f.ftype with
        | .structT inner => defaultsOkInner b inner
        | _ => true) = true
    · obtain ⟨st1, h1, hu1⟩ := defaultsStructStep_ok b f st hok1 (hp f (by simp))
      have hfsome : (lookupVal st1 f.name).isSome := by
        obtain ⟨v0, hv0, _⟩ := hp f (by simp)
        rcases hu1 with rfl | ⟨v, rfl⟩
        · simp [hv0]
        · rw [lookupVal_updateVal_self st f.name v (by simp [hv0])]
          rfl
      by_cases hok2 : fieldDefaultOk b f.tags f.ftype = true
      · have hrestbad : defaultsOk b rest = false := by
          by_contra hcon
          rw [Bool.not_eq_false, defaultsOk] at hcon
          rw [defaultsOk, List.all_cons, hok1, hok2, hcon] at hbad
          simp at hbad
        obtain ⟨st2, h2, hu2⟩ := setDefaultForField_ok b st1 f.name f.tags f.ftype hok2 hfsome
        have hrest1 : ∀ g ∈ rest, ∃ v, lookupVal st1 g.name = some v ∧
            alignedFieldVal g.ftype v = true := by
          rcases hu1 with rfl | ⟨v, rfl⟩
          · exact fun g hg => hp g (by simp [hg])
          · exact present_after_update rest st f.name v hfname (fun g hg => hp g (by simp [hg]))
        have hrest2 : ∀ g ∈ rest, ∃ v, lookupVal st2 g.name = some v ∧
            alignedFieldVal g.ftype v = true := by
          rcases hu2 with rfl | ⟨v, rfl⟩
          · exact hrest1
          · exact present_after_update rest st1 f.name v hfname hrest1
        obtain ⟨m, hm⟩ := ih st2 hrestbad hrest2 hnn'
        refine ⟨m, ?_⟩
        simp only [Binder.setFromDefaults, h1, h2]
        exact hm
      · obtain ⟨m, hm⟩ := setDefaultForField_panics b st1 f.name f.tags f.ftype
          (by simpa using hok2) hfsome
        refine ⟨m, ?_⟩
        simp only [Binder.setFromDefaults, h1, hm]
    · obtain ⟨m, hm⟩ := defaultsStructStep_panics b f st (by simpa using hok1) (hp f (by simp))
      refine ⟨m, ?_⟩
      simp only [Binder.setFromDefaults, hm]

theorem bindFromAll_panicked_of_defaults (b : Binder) (st : TopState) (m : String)
    (h : b.setFromDefaults b.schema st = .panicked m) :
    b.BindFromAll st = .panicked m := by
  simp only [Binder.BindFromAll, h]

end Apiparams

namespace Apiparams

theorem setField_ignored (b : Binder) (st : TopState) (w v : String) (src : ParamSource)
    (pf : ParamField) (hlk : mapLookup b.maps.paramFieldsByJsonName w = some pf)
    (hcs : pf.CanSetFrom src = false) : b.setField st w v src = .ok st := by
  simp only [Binder.setField, hlk, hcs]
  simp

theorem setField_sets (b : Binder) (st : TopState) (w v : String) (src : ParamSource)
    (pf : ParamField) (cur out : Value)
    (hlk : mapLookup b.maps.paramFieldsByJsonName w = some pf)
    (hcs : pf.CanSetFrom src = true)
    (hcur : lookupVal st pf.fieldName = some cur)
    (hout : parseValueField b.parsers pf.ftype cur v = .ok out) :
    b.setField st w v src = .ok (updateVal st pf.fieldName out) := by
  have hfb : fieldByName b.schema st pf.fieldName = some cur := by
    simp only [fieldByName, hcur]
  have hfu : fieldUpdateByName b.schema st pf.fieldName out =
      some (updateVal st pf.fieldName out) := by
    simp only [fieldUpdateByName, hcur]
    simp
  simp only [Binder.setField, hlk, hcs, hfb, hout, hfu]
  simp

end Apiparams

/-- Claim C7: an unparseable default-tag value makes the defaults stage
abort the bind with a panic rather than an ordinary error — the stage
can never return an error value, and its panic propagates through
BindFromAll as a panic — while a schema whose defaults all parse makes
the stage return successfully. -/
theorem C7_invalid_default_panics (b : Apiparams.Binder) (st : Apiparams.TopState)
    (hp : Apiparams.fieldsPresent b.schema st = true)
    (hnn : Apiparams.nodupKeys (b.schema.map Apiparams.GoField.name) = true) :
    (∀ e, b.setFromDefaults b.schema st ≠ .err e)
  ∧ (Apiparams.defaultsOk b b.schema = true →
      ∃ st', b.setFromDefaults b.schema st = .ok st')
  ∧ (Apiparams.defaultsOk b b.schema = false →
      ∃ m, b.setFromDefaults b.schema st = .panicked m)
  ∧ (∀ m, b.setFromDefaults b.schema st = .panicked m → b.BindFromAll st = .panicked m) :=
  ⟨fun e => Apiparams.setFromDefaults_ne_err b b.schema st e,
   fun h => Apiparams.setFromDefaults_ok b b.schema st h
     ((Apiparams.fieldsPresent_iff _ _).mp hp) hnn,
   fun h => Apiparams.setFromDefaults_panics b b.schema st h
     ((Apiparams.fieldsPresent_iff _ _).mp hp) hnn,
   fun m h => Apiparams.bindFromAll_panicked_of_defaults b st m h⟩

/-- Witness for C7: the default abc on an int field panics the defaults
stage, while parseable defaults succeed. -/
theorem C7_invalid_default_panics_witness :
    (∃ m, Apiparams.binderC7bad.setFromDefaults Apiparams.binderC7bad.schema
      (Apiparams.zeroState Apiparams.schemaC7bad) = .panicked m)
  ∧ (∃ st', Apiparams.binderC7good.setFromDefaults Apiparams.binderC7good.schema
      (Apiparams.zeroState Apiparams.schemaC7good) = .ok st') :=
  ⟨(C7_invalid_default_panics Apiparams.binderC7bad
      (Apiparams.zeroState Apiparams.schemaC7bad) rfl rfl).2.2.1 rfl,
   (C7_invalid_default_panics Apiparams.binderC7good
      (Apiparams.zeroState Apiparams.schemaC7good) rfl rfl).2.1 rfl⟩

/-- Claim C9: there is a params struct and request for which binding
panics at request time: a member of a non-anonymous nested struct with
a recognized source tag lands in the flat wire-name index, a query
parameter under that wire name resolves the field by name on the
top-level struct, the resolution yields a non-settable value, and
`binder.setField` hits the cannot-set-field panic. -/
theorem C9_nested_tag_panics :
    Apiparams.binderC9.BindFromAll (Apiparams.zeroState Apiparams.schemaC9) =
      .panicked "cannot set field B" := rfl

/-- Claim C2: a field whose honored source is a specific channel is left
unchanged, with no error, by a value submitted under its wire name from
any other channel, while a value submitted through an accepted channel
parses and sets it; and a field whose honored source is json can be set
from every channel. -/
theorem C2_source_restriction (b : Apiparams.Binder) (st : Apiparams.TopState)
    (w v : String) (pf : Apiparams.ParamField)
    (hlk : Apiparams.mapLookup b.maps.paramFieldsByJsonName w = some pf) :
    (∀ src, pf.source ≠ .json → pf.source ≠ src → b.setField st w v src = .ok st)
  ∧ (∀ src cur out, pf.CanSetFrom src = true →
      Apiparams.lookupVal st pf.fieldName = some cur →
      Apiparams.parseValueField b.parsers pf.ftype cur v = .ok out →
      b.setField st w v src = .ok (Apiparams.updateVal st pf.fieldName out))
  ∧ (pf.source = .json → ∀ src, pf.CanSetFrom src = true) := by
  refine ⟨?_, ?_, ?_⟩
  · intro src h1 h2
    have hcs : pf.CanSetFrom src = false := by
      simp only [Apiparams.ParamField.CanSetFrom, Bool.or_eq_false_iff,
        beq_eq_false_iff_ne, ne_eq]
      exact ⟨h1, h2⟩
    exact Apiparams.setField_ignored b st w v src pf hlk hcs
  · intro src cur out hcs hcur hout
    exact Apiparams.setField_sets b st w v src pf cur out hlk hcs hcur hout
  · intro hj src
    simp [Apiparams.ParamField.CanSetFrom, hj]

/-- Witness for C2: on a struct with a path-restricted Wibble field and
a universal U field, a same-named query value leaves Wibble unchanged
with no error, the path channel sets it, and the json-sourced U is
settable from the query channel. -/
theorem C2_source_restriction_witness :
    Apiparams.binderC2w.setField (Apiparams.zeroState Apiparams.schemaC2w)
      "wibble" "5" .query = .ok (Apiparams.zeroState Apiparams.schemaC2w)
  ∧ Apiparams.binderC2w.setField (Apiparams.zeroState Apiparams.schemaC2w)
      "wibble" "5" .path =
      .ok (Apiparams.updateVal (Apiparams.zeroState Apiparams.schemaC2w)
        "Wibble" (.vStr "5"))
  ∧ Apiparams.binderC2w.setField (Apiparams.zeroState Apiparams.schemaC2w)
      "u" "q" .query =
      .ok (Apiparams.updateVal (Apiparams.zeroState Apiparams.schemaC2w)
        "U" (.vStr "q")) := by
  have h1 := C2_source_restriction Apiparams.binderC2w
    (Apiparams.zeroState Apiparams.schemaC2w) "wibble" "5"
    ⟨"wibble", .path, "Wibble", .scalar .tString⟩ rfl
  have h2 := C2_source_restriction Apiparams.binderC2w
    (Apiparams.zeroState Apiparams.schemaC2w) "u" "q"
    ⟨"u", .json, "U", .scalar .tString⟩ rfl
  exact ⟨h1.1 .query (by decide) (by decide),
    h1.2.1 .path (.vStr "") (.vStr "5") rfl rfl rfl,
    h2.2.1 .query (.vStr "") (.vStr "q") (h2.2.2 rfl .query) rfl rfl⟩

namespace Apiparams

theorem setValues_sliceString_accum (b : Binder) (w : String) (pf : ParamField)
    (hlk : mapLookup b.maps.paramFieldsByJsonName w = some pf)
    (hps : b.parsers .tString = none) (hpss : b.parsers .tSliceString = none)
    (src : ParamSource) (hcs : pf.CanSetFrom src = true)
    (hty : pf.ftype = .scalar .tSliceString) :
    ∀ (vs : List String) (st : TopState) (xs : List String),
      lookupVal st pf.fieldName = some (.vSliceString xs) →
      ∃ st', b.setValues src w vs st = .ok st' ∧
        lookupVal st' pf.fieldName = some (.vSliceString (xs ++ vs)) := by
  intro vs
  induction vs with
  | nil => intro st xs hcur; exact ⟨st, rfl, by simpa using hcur⟩
  | cons v rest ih =>
    intro st xs hcur
    have hout : parseValueField b.parsers pf.ftype (.vSliceString xs) v =
        .ok (.vSliceString (xs ++ [v])) := by
      rw [hty]
      simp [parseValueField, parseValue, stripPtr, parseValueCore, hpss,
        parseStringElem, hps, wrapPtr]
    have hset := setField_sets b st w v src pf _ _ hlk hcs hcur hout
    have hcur' : lookupVal (updateVal st pf.fieldName (.vSliceString (xs ++ [v])))
        pf.fieldName = some (.vSliceString (xs ++ [v])) :=
      lookupVal_updateVal_self st pf.fieldName _ (by simp [hcur])
    obtain ⟨st', h1, h2⟩ := ih (updateVal st pf.fieldName (.vSliceString (xs ++ [v])))
      (xs ++ [v]) hcur'
    refine ⟨st', ?_, by simpa [List.append_assoc] using h2⟩
    simp only [Binder.setValues, hset]
    exact h1

end Apiparams

/-- Claim C8: on a string-slice or int-slice field (or a pointer to such
a slice), each successful `setField` call with a parseable value yields
the previous slice with exactly one parsed element appended (a fresh
one-element slice when the field was nil), so submitting several values
under the same wire name within one source yields the slice of their
parsed values in submission order. -/
theorem C8_slice_accumulate (b : Apiparams.Binder) (st : Apiparams.TopState)
    (w v : String) (pf : Apiparams.ParamField)
    (hlk : Apiparams.mapLookup b.maps.paramFieldsByJsonName w = some pf)
    (hps : b.parsers .tString = none) (hpi : b.parsers .tInt = none)
    (hpss : b.parsers .tSliceString = none) (hpsi : b.parsers .tSliceInt = none) :
    (∀ src xs, pf.CanSetFrom src = true → pf.ftype = .scalar .tSliceString →
      Apiparams.lookupVal st pf.fieldName = some (.vSliceString xs) →
      b.setField st w v src =
        .ok (Apiparams.updateVal st pf.fieldName (.vSliceString (xs ++ [v]))))
  ∧ (∀ src xs n, pf.CanSetFrom src = true → pf.ftype = .scalar .tSliceInt →
      Apiparams.lookupVal st pf.fieldName = some (.vSliceInt xs) →
      Apiparams.parseGoInt 64 v = some n →
      b.setField st w v src =
        .ok (Apiparams.updateVal st pf.fieldName (.vSliceInt (xs ++ [n]))))
  ∧ (∀ src, pf.CanSetFrom src = true → pf.ftype = .scalar (.tPtr .tSliceString) →
      Apiparams.lookupVal st pf.fieldName = some (.vPtr none) →
      b.setField st w v src =
        .ok (Apiparams.updateVal st pf.fieldName (.vPtr (some (.vSliceString [v])))))
  ∧ (∀ src (vs xs : List String), pf.CanSetFrom src = true →
      pf.ftype = .scalar .tSliceString →
      Apiparams.lookupVal st pf.fieldName = some (.vSliceString xs) →
      ∃ st', b.setValues src w vs st = .ok st' ∧
        Apiparams.lookupVal st' pf.fieldName = some (.vSliceString (xs ++ vs))) := by
  refine ⟨?_, ?_, ?_, ?_⟩
  · intro src xs hcs hty hcur
    refine Apiparams.setField_sets b st w v src pf _ _ hlk hcs hcur ?_
    rw [hty]
    simp [Apiparams.parseValueField, Apiparams.parseValue, Apiparams.stripPtr,
      Apiparams.parseValueCore, hpss, Apiparams.parseStringElem, hps, Apiparams.wrapPtr]
  · intro src xs n hcs hty hcur hn
    refine Apiparams.setField_sets b st w v src pf _ _ hlk hcs hcur ?_
    rw [hty]
    simp [Apiparams.parseValueField, Apiparams.parseValue, Apiparams.stripPtr,
      Apiparams.parseValueCore, hpsi, Apiparams.parseIntElem, hpi, hn, Apiparams.wrapPtr]
  · intro src hcs hty hcur
    refine Apiparams.setField_sets b st w v src pf _ _ hlk hcs hcur ?_
    rw [hty]
    simp [Apiparams.parseValueField, Apiparams.parseValue, Apiparams.stripPtr,
      Apiparams.parseValueCore, hpss, Apiparams.parseStringElem, hps, Apiparams.wrapPtr]
  · intro src vs xs hcs hty hcur
    exact Apiparams.setValues_sliceString_accum b w pf hlk hps hpss src hcs hty vs st xs hcur

/-- Witness for C8: three query values x, y, z under the wire name of a
string-slice field accumulate, from the zero state, into the slice
[x, y, z] in submission order. -/
theorem C8_slice_accumulate_witness :
    ∃ st', Apiparams.binderC8w.setValues .query "tag" ["x", "y", "z"]
        (Apiparams.zeroState Apiparams.schemaC8w) = .ok st' ∧
      Apiparams.lookupVal st' "Tags" = some (.vSliceString ["x", "y", "z"]) := by
  have h := (C8_slice_accumulate Apiparams.binderC8w
    (Apiparams.zeroState Apiparams.schemaC8w) "tag" "x"
    ⟨"tag", .json, "Tags", .scalar .tSliceString⟩ rfl rfl rfl rfl rfl).2.2.2
    .query ["x", "y", "z"] [] rfl rfl rfl
  simpa using h

namespace Apiparams

theorem NewHTTPError_code (c : Nat) (m : String) : (NewHTTPError c m).code = c := by
  simp only [NewHTTPError]
  split <;> rfl

end Apiparams

/-- Counterexample for C3 as stated: a request with a declared body and
Content-Type application/json; charset=utf-8 — which is not exactly
application/json — is not rejected with a 415; the body is decoded. -/
theorem C3_media_type_counterexample :
    ("application/json; charset=utf-8" : String) ≠ "application/json"
  ∧ Apiparams.binderC3cx.req.contentLength ≠ 0
  ∧ Apiparams.headerGet Apiparams.binderC3cx.req.headers "Content-Type" =
      "application/json; charset=utf-8"
  ∧ Apiparams.binderC3cx.setFromJSONBody [] = .ok [] :=
  ⟨by decide, by decide, rfl, rfl⟩

/-- Claim C3 (amended): the JSON-body stage is a no-op when the request
declares no body (ContentLength zero); when a body is declared, binding
fails with the unsupported-media-type error (HTTP 415) if and only if
the Content-Type does not have application/json as a prefix, and
otherwise the body is decoded into the struct (failures there surface
as 400s). -/
theorem C3_json_body_stage (b : Apiparams.Binder) (st : Apiparams.TopState) :
    (b.req.contentLength = 0 → b.setFromJSONBody st = .ok st)
  ∧ (b.req.contentLength ≠ 0 →
      ((b.setFromJSONBody st = .err (Apiparams.NewHTTPError 415 "") ↔
        GoStrings.goHasPre (Apiparams.headerGet b.req.headers "Content-Type")
          "application/json" = false)
       ∧ (GoStrings.goHasPre (Apiparams.headerGet b.req.headers "Content-Type")
            "application/json" = true →
          b.setFromJSONBody st =
            match b.req.body st with
            | .ok st' => .ok st'
            | .error msg => .err (Apiparams.NewHTTPError 400 msg)))) := by
  constructor
  · intro h
    simp [Apiparams.Binder.setFromJSONBody, h]
  · intro h
    have heq : b.setFromJSONBody st =
        if GoStrings.goHasPre (Apiparams.headerGet b.req.headers "Content-Type")
            "application/json" = true then
          (match b.req.body st with
           | .ok st' => .ok st'
           | .error msg => .err (Apiparams.NewHTTPError 400 msg))
        else .err (Apiparams.NewHTTPError 415 "") := by
      simp only [Apiparams.Binder.setFromJSONBody, if_neg h]
    by_cases hpre : GoStrings.goHasPre (Apiparams.headerGet b.req.headers "Content-Type")
        "application/json" = true
    · refine ⟨⟨?_, ?_⟩, ?_⟩
      · intro hres
        rw [heq, if_pos hpre] at hres
        cases hb : b.req.body st with
        | ok st' =>
          rw [hb] at hres
          simp at hres
        | error msg =>
          rw [hb] at hres
          simp only at hres
          injection hres with h'
          have hcode := congrArg Apiparams.HTTPError.code h'
          rw [Apiparams.NewHTTPError_code, Apiparams.NewHTTPError_code] at hcode
          cases hcode
      · intro hx
        rw [hpre] at hx
        cases hx
      · intro _
        rw [heq, if_pos hpre]
    · have hfalse : GoStrings.goHasPre (Apiparams.headerGet b.req.headers "Content-Type")
          "application/json" = false := by simpa using hpre
      exact ⟨⟨fun _ => hfalse, fun _ => by rw [heq, if_neg hpre]⟩,
        fun hx => absurd hx hpre⟩

/-- Witness for C3 (amended): an xml-typed body is rejected with the
415 error, and a request without a body leaves the state unchanged. -/
theorem C3_json_body_stage_witness :
    Apiparams.binderC3xml.setFromJSONBody [] = .err (Apiparams.NewHTTPError 415 "")
  ∧ (Apiparams.newBinder [] Apiparams.emptyRequest [] []).setFromJSONBody [] = .ok [] :=
  ⟨((C3_json_body_stage Apiparams.binderC3xml []).2 (by decide)).1.mpr rfl,
   (C3_json_body_stage (Apiparams.newBinder [] Apiparams.emptyRequest [] []) []).1 rfl⟩

/-- Claim C1: for a params struct with a scalar field declared with the
universal json source, a request supplying both a query parameter and a
path parameter under that field's wire name leaves the field holding
the path parameter's coerced value after BindFromAll, because the
stages run in the fixed order defaults, headers, JSON body, form,
query, path, and each later stage overwrites earlier ones.  (That the
field is scalar is captured by its parse result not depending on the
current field value.) -/
theorem C1_path_overrides_query (schema : List Apiparams.GoField)
    (w qv pv : String) (pf : Apiparams.ParamField) (vq vp : Apiparams.Value)
    (decode : Apiparams.TopState → Except String Apiparams.TopState)
    (b : Apiparams.Binder)
    (hb : b = Apiparams.newBinder schema ⟨[], 0, decode, [], [(w, [qv])]⟩ [w] [pv])
    (hnn : Apiparams.nodupKeys (schema.map Apiparams.GoField.name) = true)
    (hnd : Apiparams.noDefaultTags schema = true)
    (hlk : Apiparams.mapLookup
      (Apiparams.parseStructTags schema ⟨[], []⟩).paramFieldsByJsonName w = some pf)
    (hsrc : pf.source = .json)
    (hmem : pf.fieldName ∈ schema.map Apiparams.GoField.name)
    (hq : ∀ cur, Apiparams.parseValueField (fun _ => none) pf.ftype cur qv = .ok vq)
    (hp : ∀ cur, Apiparams.parseValueField (fun _ => none) pf.ftype cur pv = .ok vp) :
    ∃ st', b.BindFromAll (Apiparams.zeroState schema) = .ok st' ∧
      Apiparams.lookupVal st' pf.fieldName = some vp := by
  subst hb
  have h1 : (Apiparams.newBinder schema ⟨[], 0, decode, [], [(w, [qv])]⟩
      [w] [pv]).setFromDefaults
      (Apiparams.newBinder schema ⟨[], 0, decode, [], [(w, [qv])]⟩ [w] [pv]).schema
      (Apiparams.zeroState schema) =
      .ok (Apiparams.zeroState schema) :=
    Apiparams.setFromDefaults_noop _ schema (Apiparams.zeroState schema) hnd
      (Apiparams.fieldsPresent_zero schema hnn)
      (by rw [Apiparams.zeroState_keys]; exact hnn)
  have h2 : (Apiparams.newBinder schema ⟨[], 0, decode, [], [(w, [qv])]⟩
      [w] [pv]).setFromHeaders (Apiparams.zeroState schema) =
      .ok (Apiparams.zeroState schema) := rfl
  have h3 : (Apiparams.newBinder schema ⟨[], 0, decode, [], [(w, [qv])]⟩
      [w] [pv]).setFromJSONBody (Apiparams.zeroState schema) =
      .ok (Apiparams.zeroState schema) := rfl
  have h4 : (Apiparams.newBinder schema ⟨[], 0, decode, [], [(w, [qv])]⟩
      [w] [pv]).setFromForm (Apiparams.zeroState schema) =
      .ok (Apiparams.zeroState schema) := rfl
  have hsome0 : (Apiparams.lookupVal (Apiparams.zeroState schema) pf.fieldName).isSome :=
    Apiparams.lookupVal_isSome_of_mem _ _ (by rw [Apiparams.zeroState_keys]; exact hmem)
  obtain ⟨c0, hc0⟩ := Option.isSome_iff_exists.mp hsome0
  have hcs_q : pf.CanSetFrom .query = true := by
    simp [Apiparams.ParamField.CanSetFrom, hsrc]
  have hcs_p : pf.CanSetFrom .path = true := by
    simp [Apiparams.ParamField.CanSetFrom, hsrc]
  have hsf_q := Apiparams.setField_sets
    (Apiparams.newBinder schema ⟨[], 0, decode, [], [(w, [qv])]⟩ [w] [pv])
    (Apiparams.zeroState schema) w qv .query pf c0 vq hlk hcs_q hc0 (hq c0)
  have h5 : (Apiparams.newBinder schema ⟨[], 0, decode, [], [(w, [qv])]⟩
      [w] [pv]).setFromQueryParams (Apiparams.zeroState schema) =
      .ok (Apiparams.updateVal (Apiparams.zeroState schema) pf.fieldName vq) := by
    simp only [Apiparams.Binder.setFromQueryParams, Apiparams.Binder.setFromKVs,
      Apiparams.Binder.setValues, hsf_q]
  have hsome1 : Apiparams.lookupVal
      (Apiparams.updateVal (Apiparams.zeroState schema) pf.fieldName vq) pf.fieldName =
      some vq :=
    Apiparams.lookupVal_updateVal_self _ pf.fieldName vq hsome0
  have hsf_p := Apiparams.setField_sets
    (Apiparams.newBinder schema ⟨[], 0, decode, [], [(w, [qv])]⟩ [w] [pv])
    (Apiparams.updateVal (Apiparams.zeroState schema) pf.fieldName vq)
    w pv .path pf vq vp hlk hcs_p hsome1 (hp vq)
  have h6 : (Apiparams.newBinder schema ⟨[], 0, decode, [], [(w, [qv])]⟩
      [w] [pv]).setFromPathParams
      (Apiparams.updateVal (Apiparams.zeroState schema) pf.fieldName vq) =
      .ok (Apiparams.updateVal
        (Apiparams.updateVal (Apiparams.zeroState schema) pf.fieldName vq)
        pf.fieldName vp) := by
    simp only [Apiparams.Binder.setFromPathParams, Apiparams.Binder.setFromPathParamsAux,
      List.get?, hsf_p]
  have hfinal : Apiparams.lookupVal
      (Apiparams.updateVal
        (Apiparams.updateVal (Apiparams.zeroState schema) pf.fieldName vq)
        pf.fieldName vp) pf.fieldName = some vp :=
    Apiparams.lookupVal_updateVal_self _ pf.fieldName vp (by simp [hsome1])
  refine ⟨_, ?_, hfinal⟩
  simp only [Apiparams.Binder.BindFromAll, h1, h2, h3, h4, h5, h6]

/-- Witness for C1: an int field declared json x, with query x=5 and
path x=7; after BindFromAll the field holds 7, the path value. -/
theorem C1_path_overrides_query_witness :
    ∃ st', Apiparams.binderC1w.BindFromAll (Apiparams.zeroState Apiparams.schemaC1w) =
        .ok st' ∧
      Apiparams.lookupVal st' "Field1" = some (.vInt 7) :=
  C1_path_overrides_query Apiparams.schemaC1w "x" "5" "7"
    ⟨"x", .json, "Field1", .scalar .tInt⟩ (.vInt 5) (.vInt 7)
    (fun st => .ok st) Apiparams.binderC1w rfl rfl rfl rfl rfl (by decide)
    (fun _ => rfl) (fun _ => rfl)

namespace Apiparams

theorem plainSeg_spec (s : String) (h : plainSeg s = true) :
    ∀ c ∈ s.data, c ≠ '.' ∧ c ≠ '[' ∧ c ≠ ']' := by
  intro c hc
  rw [plainSeg, List.all_eq_true] at h
  have hx := h c hc
  simp only [Bool.and_eq_true, decide_eq_true_eq] at hx
  exact ⟨hx.1.1, hx.1.2, hx.2⟩

theorem flushRun_data (lookup : List (String × String)) (s : String) (hs : s ≠ "") :
    flushRun lookup s.data = wireLookup lookup s := by
  have hd : s.data ≠ [] := by
    intro hx
    apply hs
    apply String.ext
    simpa using hx
  have hie : s.data.isEmpty = false := by simpa [List.isEmpty_iff] using hd
  simp only [flushRun, wireLookup, hie]
  rfl

theorem fieldMapperGo_final (lookup : List (String × String)) (buf : String)
    (run : List Char) (inIdx : Bool) :
    fieldMapperGo lookup [] buf run inIdx = buf ++ flushRun lookup run := rfl

theorem fieldMapperGo_plain (lookup : List (String × String)) :
    ∀ (cs rest : List Char) (buf : String) (run : List Char),
      (∀ c ∈ cs, c ≠ '.' ∧ c ≠ '[' ∧ c ≠ ']') →
      fieldMapperGo lookup (cs ++ rest) buf run false =
        fieldMapperGo lookup rest buf (run ++ cs) false := by
  intro cs
  induction cs with
  | nil => intro rest buf run _; simp
  | cons c cs' ih =>
    intro rest buf run hplain
    obtain ⟨h1, h2, h3⟩ := hplain c (by simp)
    have hstep : fieldMapperGo lookup ((c :: cs') ++ rest) buf run false =
        fieldMapperGo lookup (cs' ++ rest) buf (run ++ [c]) false := by
      simp only [List.cons_append, fieldMapperGo, if_neg h1, if_neg h2, if_neg h3]
      simp
    rw [hstep, ih rest buf (run ++ [c]) (fun x hx => hplain x (by simp [hx]))]
    simp [List.append_assoc]

theorem fieldMapperGo_plain_tail (lookup : List (String × String)) (cs : List Char)
    (buf : String) (h : ∀ c ∈ cs, c ≠ '.' ∧ c ≠ '[' ∧ c ≠ ']') :
    fieldMapperGo lookup cs buf [] false = buf ++ flushRun lookup cs := by
  have hx := fieldMapperGo_plain lookup cs [] buf [] h
  simpa [fieldMapperGo_final] using hx

theorem fieldMapperGo_idx (lookup : List (String × String)) :
    ∀ (cs rest : List Char) (buf : String) (run : List Char),
      (∀ c ∈ cs, c ≠ '.' ∧ c ≠ '[' ∧ c ≠ ']') →
      fieldMapperGo lookup (cs ++ rest) buf run true =
        fieldMapperGo lookup rest (buf ++ String.mk cs) run true := by
  intro cs
  induction cs with
  | nil =>
    intro rest buf run _
    have hb : buf ++ String.mk [] = buf := by
      apply String.ext
      simp [String.data_append]
    simp [hb]
  | cons c cs' ih =>
    intro rest buf run hplain
    obtain ⟨h1, h2, h3⟩ := hplain c (by simp)
    have hstep : fieldMapperGo lookup ((c :: cs') ++ rest) buf run true =
        fieldMapperGo lookup (cs' ++ rest) (buf ++ String.mk [c]) run true := by
      simp only [List.cons_append, fieldMapperGo, if_neg h1, if_neg h2, if_neg h3]
      simp
    rw [hstep, ih rest (buf ++ String.mk [c]) run (fun x hx => hplain x (by simp [hx]))]
    congr 1
    apply String.ext
    simp [String.data_append]

end Apiparams

/-- Claim C10: `MapFieldNameToParamName` maps each dotted name segment
through the field-name-to-wire-name index, substituting the empty
string — dropping the segment from the output — when the segment is
absent from the index (a Go map miss yields the zero value), while a
bracketed index segment is copied through verbatim; hence a validation
error on a field lacking a recognized source tag is reported with an
empty path segment. -/
theorem C10_field_name_mapping (lookup : List (String × String)) (a b i : String)
    (hA : Apiparams.plainSeg a = true) (hB : Apiparams.plainSeg b = true)
    (hI : Apiparams.plainSeg i = true)
    (hA' : a ≠ "") (hB' : b ≠ "") :
    (Apiparams.MapFieldNameToParamName lookup (a ++ "." ++ b) =
      Apiparams.wireLookup lookup a ++ "." ++ Apiparams.wireLookup lookup b)
  ∧ (Apiparams.MapFieldNameToParamName lookup (a ++ "[" ++ i ++ "]." ++ b) =
      Apiparams.wireLookup lookup a ++ "[" ++ i ++ "]." ++ Apiparams.wireLookup lookup b)
  ∧ (∀ s, Apiparams.mapLookup lookup s = none → Apiparams.wireLookup lookup s = "") := by
  have hAspec := Apiparams.plainSeg_spec a hA
  have hBspec := Apiparams.plainSeg_spec b hB
  have hIspec := Apiparams.plainSeg_spec i hI
  refine ⟨?_, ?_, ?_⟩
  · have hdata : (a ++ "." ++ b).data = a.data ++ ('.' :: b.data) := by
      simp [String.data_append, List.append_assoc]
    rw [Apiparams.MapFieldNameToParamName, hdata,
      Apiparams.fieldMapperGo_plain lookup a.data ('.' :: b.data) "" [] hAspec]
    have hdot : Apiparams.fieldMapperGo lookup ('.' :: b.data) "" ([] ++ a.data) false =
        Apiparams.fieldMapperGo lookup b.data
          ("" ++ Apiparams.flushRun lookup ([] ++ a.data) ++ ".") [] false := by
      simp only [Apiparams.fieldMapperGo]
      simp
    rw [hdot, Apiparams.fieldMapperGo_plain_tail lookup b.data _ hBspec]
    rw [show ([] ++ a.data : List Char) = a.data from rfl,
      Apiparams.flushRun_data lookup a hA', Apiparams.flushRun_data lookup b hB']
    apply String.ext
    simp [String.data_append]
  · have hdata : (a ++ "[" ++ i ++ "]." ++ b).data =
        a.data ++ ('[' :: (i.data ++ (']' :: '.' :: b.data))) := by
      simp [String.data_append, List.append_assoc]
    rw [Apiparams.MapFieldNameToParamName, hdata,
      Apiparams.fieldMapperGo_plain lookup a.data _ "" [] hAspec]
    have hbr : Apiparams.fieldMapperGo lookup ('[' :: (i.data ++ (']' :: '.' :: b.data)))
        "" ([] ++ a.data) false =
        Apiparams.fieldMapperGo lookup (i.data ++ (']' :: '.' :: b.data))
          ("" ++ Apiparams.flushRun lookup ([] ++ a.data) ++ "[") [] true := by
      simp only [Apiparams.fieldMapperGo]
      simp
    rw [hbr, Apiparams.fieldMapperGo_idx lookup i.data _ _ [] hIspec]
    have hcl : Apiparams.fieldMapperGo lookup (']' :: '.' :: b.data)
        ("" ++ Apiparams.flushRun lookup ([] ++ a.data) ++ "[" ++ String.mk i.data) [] true =
        Apiparams.fieldMapperGo lookup b.data
          ("" ++ Apiparams.flushRun lookup ([] ++ a.data) ++ "[" ++ String.mk i.data
            ++ "]" ++ Apiparams.flushRun lookup [] ++ ".") [] false := by
      simp only [Apiparams.fieldMapperGo]
      simp
    rw [hcl, Apiparams.fieldMapperGo_plain_tail lookup b.data _ hBspec]
    rw [show ([] ++ a.data : List Char) = a.data from rfl,
      Apiparams.flushRun_data lookup a hA', Apiparams.flushRun_data lookup b hB']
    apply String.ext
    simp [String.data_append, Apiparams.flushRun]
  · intro s hs
    simp [Apiparams.wireLookup, hs]

/-- Witness for C10: with an index mapping only Foo to foo, the path
Foo.Bar maps to foo. (the unindexed segment Bar is dropped to an empty
segment) and Foo[0].Baz maps to foo[0]. with the index copied
verbatim. -/
theorem C10_field_name_mapping_witness :
    Apiparams.MapFieldNameToParamName [("Foo", "foo")] "Foo.Bar" = "foo."
  ∧ Apiparams.MapFieldNameToParamName [("Foo", "foo")] "Foo[0].Bar" = "foo[0]." := by
  have h := C10_field_name_mapping [("Foo", "foo")] "Foo" "Bar" "0"
    rfl rfl rfl (by decide) (by decide)
  constructor
  · have h1 := h.1
    rw [show ("Foo" ++ "." ++ "Bar" : String) = "Foo.Bar" from rfl] at h1
    rw [h1]
    rfl
  · have h2 := h.2.1
    rw [show ("Foo" ++ "[" ++ "0" ++ "]." ++ "Bar" : String) = "Foo[0].Bar" from rfl] at h2
    rw [h2]
    rfl
